import Mathlib

/-!
# nmtool: the `estimate-block-height`, `inflation avg` and `swap-id` commands

A shallow embedding of the three command bodies of `cmd/estimate-block.go`,
`cmd/inflation.go` and `cmd/swap_id.go`.

Conventions of the embedding.

* A command is a function from its environment (the remote client, the clock,
  the library decoders) and its argument list to a `Run`: the ordered log of
  the observable steps it took (client calls and printed lines) and how it
  ended.
* `int64` values are integers; the operations the code performs on them wrap
  modulo `2^64` (`addInt64`, `subInt64`).
* `float64` values are modelled by `F64`, the IEEE 754 binary64 format: a
  finite value is a sign and a magnitude counted in units of `2^-1074`, and
  every operation rounds its exact result to the nearest representable value,
  ties to the even significand (`F64.ofExact`).
* `time.Time` is a count of nanoseconds on the wall clock, `time.Duration` a
  count of nanoseconds saturating at the `int64` bounds, as `Time.Sub` does.
-/

namespace Nmtool

/-! ## Machine integers -/

/-- Smallest `int64`. -/
def minInt64 : Int := -9223372036854775808

/-- Largest `int64`. -/
def maxInt64 : Int := 9223372036854775807

/-- Membership in the `int64` range. -/
def inInt64 (x : Int) : Prop := minInt64 ≤ x ∧ x ≤ maxInt64

instance (x : Int) : Decidable (inInt64 x) := by
  unfold inInt64; infer_instance

/-- Two's-complement reduction of an integer to `int64`. -/
def wrapInt64 (x : Int) : Int := (x + 9223372036854775808) % 18446744073709551616 - 9223372036854775808

/-- Go's `a + b` on `int64`. -/
def addInt64 (a b : Int) : Int := wrapInt64 (a + b)

/-- Go's `a - b` on `int64`. -/
def subInt64 (a b : Int) : Int := wrapInt64 (a - b)

/-! ## Floating point: IEEE 754 binary64 -/

/-- The number of units in 1: a unit is `2^-1074`, the smallest positive
`float64`, and every finite `float64` is a whole number of units. -/
def unitsPerOne : Nat := 2 ^ 1074

/-- The magnitude, in units, from which a result overflows: `2^1024`. -/
def overflowUnits : Nat := 2 ^ 2098

/-- A `float64`: a finite value (its sign, and its magnitude in units of
`2^-1074`; both zeros are finite values), an infinity, or NaN. -/
inductive F64 where
  | fin (negative : Bool) (units : Nat)
  | inf (negative : Bool)
  | nan
  deriving DecidableEq

/-- The least `j` from `i` on with `n < 2 ^ 2 ^ j`, found by stepping upward. -/
def expBound (n : Nat) : Nat → Nat → Nat
  | 0, i => i
  | fuel + 1, i => if n < 2 ^ 2 ^ i then i else expBound n fuel (i + 1)

/-- The exponent `e` with `2 ^ e ≤ n < 2 ^ (e + 1)`, found by bisection: from
`2 ^ acc ≤ n < 2 ^ (acc + 2 ^ i)`, halving the width `2 ^ i` each step. -/
def log2Search (n : Nat) : Nat → Nat → Nat
  | 0, acc => acc
  | i + 1, acc =>
    if 2 ^ (acc + 2 ^ i) ≤ n then log2Search n i (acc + 2 ^ i) else log2Search n i acc

/-- The number of binary digits of `n`. -/
def bitLength (n : Nat) : Nat :=
  if n = 0 then 0 else log2Search n (expBound n n 0) 0 + 1

/-- The magnitude nearest to the exact quotient `p / q` among the magnitudes
with a significand of 53 bits, a tie going to the even significand: below
`2^53` the candidates are the whole numbers, and where the quotient has
`53 + s` binary digits they are the multiples of `2^s`. -/
def roundUnits (p q : Nat) : Nat :=
  let s := bitLength (p / q) - 53
  let d := q * 2 ^ s
  let m := p / d
  let r := p % d
  (if d < 2 * r ∨ (2 * r = d ∧ m % 2 = 1) then m + 1 else m) * 2 ^ s

/-- A magnitude a finite `float64` can have, the bound of the exponent aside:
a significand below `2^53` times a power of two. -/
def Representable (k : Nat) : Prop := ∃ m e, m < 2 ^ 53 ∧ k = m * 2 ^ e

/-- The distance `|p - k * q|` of the magnitude `k` from the exact quotient
`p / q`, in `q`-ths of a unit. -/
def distTo (p q k : Nat) : Nat := (p - k * q) + (k * q - p)

/-- The magnitude `k` is a `float64` rounding of the exact quotient `p / q`
(round to nearest, ties to even): it is representable; no representable
magnitude is nearer to `p / q`; and when another one is as near, `k` is an
even multiple of their distance. -/
def IsRounding (p q k : Nat) : Prop :=
  Representable k ∧
  (∀ z, Representable z → distTo p q k ≤ distTo p q z) ∧
  (∀ z, Representable z → z ≠ k → distTo p q z = distTo p q k →
    2 * ((k - z) + (z - k)) ∣ k)

namespace F64

/-- The `float64` nearest to the exact magnitude `p / q` units with the given
sign (round to nearest, ties to even); an infinity on overflow. -/
def ofExact (negative : Bool) (p q : Nat) : F64 :=
  if overflowUnits ≤ roundUnits p q then inf negative else fin negative (roundUnits p q)

/-- The `float64` of a natural-number constant of the source (`1e9`, `3600`). -/
def ofNat (n : Nat) : F64 := ofExact false (n * unitsPerOne) 1

/-- The value of a finite `float64` (and 0 for the others). -/
def toRat : F64 → ℚ
  | fin s k => (if s then -1 else 1) * ((k : ℚ) / (unitsPerOne : ℚ))
  | _ => 0

/-- Whether a `float64` is below zero: a negative non-zero finite value, or
`-Inf`. -/
def negative : F64 → Bool
  | fin s k => s && decide (k ≠ 0)
  | inf s => s
  | nan => false

/-- Go's `x + y` on `float64`. -/
def add : F64 → F64 → F64
  | fin s a, fin t b =>
    if s = t then ofExact s (a + b) 1
    else if a = b then fin false 0
    else if b < a then ofExact s (a - b) 1
    else ofExact t (b - a) 1
  | fin _ _, inf t => inf t
  | inf s, fin _ _ => inf s
  | inf s, inf t => if s = t then inf s else nan
  | nan, _ => nan
  | _, nan => nan

/-- Go's `x / y` on `float64`. -/
def div : F64 → F64 → F64
  | fin s a, fin t b =>
    if b = 0 then (if a = 0 then nan else inf (xor s t))
    else ofExact (xor s t) (a * unitsPerOne) b
  | fin s _, inf t => fin (xor s t) 0
  | inf s, fin t _ => inf (xor s t)
  | inf _, inf _ => nan
  | nan, _ => nan
  | _, nan => nan

/-- Go's `x * y` on `float64`. -/
def mul : F64 → F64 → F64
  | fin s a, fin t b => ofExact (xor s t) (a * b) unitsPerOne
  | fin s a, inf t => if a = 0 then nan else inf (xor s t)
  | inf s, fin t b => if b = 0 then nan else inf (xor s t)
  | inf s, inf t => inf (xor s t)
  | nan, _ => nan
  | _, nan => nan

end F64

/-- The specification of rounding to nearest with a half rounded away from
zero: `r` is within one half of `q`, and at exactly one half it is the
candidate of larger magnitude. -/
def IsNearestHalfAway (q : ℚ) (r : Int) : Prop :=
  |q - r| < 1 / 2 ∨ (|q - r| = 1 / 2 ∧ |q| < |(r : ℚ)|)

/-- The whole number of a magnitude in units, a fraction of one half or more
rounded up. -/
def roundedWhole (units : Nat) : Nat :=
  units / unitsPerOne + (if unitsPerOne ≤ 2 * (units % unitsPerOne) then 1 else 0)

/-- The integer value of `math.Round` at the finite value of sign `s` and
magnitude `units`. -/
def roundedInt (s : Bool) (units : Nat) : Int :=
  if s then -((roundedWhole units : Nat) : Int) else ((roundedWhole units : Nat) : Int)

/-- Go's `math.Round`: "the nearest integer, rounding half away from zero";
the sign is kept, and infinities and NaN are returned unchanged. -/
def mathRound : F64 → F64
  | .fin s k => .fin s (roundedWhole k * unitsPerOne)
  | x => x

/-- Go's conversion `int64(x)` of a `float64`: the fraction is discarded; when
the value does not fit (or is not finite) the result is implementation
dependent, given by `impl`. -/
def int64OfF64 (impl : F64 → Int) : F64 → Int
  | .fin s k =>
    let v : Int := if s then -((k / unitsPerOne : Nat) : Int) else ((k / unitsPerOne : Nat) : Int)
    if inInt64 v then v else impl (.fin s k)
  | x => impl x

/-- Go's `float64(n)` of an `int64`. -/
def f64OfInt64 (n : Int) : F64 := F64.ofExact (decide (n < 0)) (n.natAbs * unitsPerOne) 1

/-! ## Time -/

/-- A `time.Time`: nanoseconds on the wall clock. -/
abbrev Time := Int

/-- A `time.Duration`: nanoseconds, an `int64`. -/
abbrev Duration := Int

/-- Go's `t.Before(u)`. -/
def timeBefore (t u : Time) : Bool := decide (t < u)

/-- Go's `t.Sub(u)`: the difference, saturating at the `Duration` bounds. -/
def timeSub (t u : Time) : Duration :=
  if t - u < minInt64 then minInt64 else if maxInt64 < t - u then maxInt64 else t - u

/-- A duration in seconds, exactly. -/
def secondsOf (d : Duration) : ℚ := (d : ℚ) / 1000000000

/-- Go's `d.Seconds()`:
`sec := d / Second; nsec := d % Second; return float64(sec) + float64(nsec)/1e9`,
the integer division truncating toward zero. -/
def durationSeconds (d : Duration) : F64 :=
  F64.add (f64OfInt64 (Int.tdiv d 1000000000))
    (F64.div (f64OfInt64 (Int.tmod d 1000000000)) (F64.ofNat 1000000000))

/-! ## Blocks -/

/-- A block header, as far as the commands read it. -/
structure Header where
  Height : Int
  Time : Time
  deriving DecidableEq

/-- A block returned by the client. -/
structure Block where
  Header : Header
  deriving DecidableEq

/-! ## `estimate-block-height` (cmd/estimate-block.go) -/

namespace Estimate

/-- The remote client `k`, as far as the command uses it. -/
structure Client where
  LatestBlock : Int → Except String Block
  Block : Int → Int → Except String Block

/-- What the command body reads from outside: the package variable
`nemoGrpcUrl`, the client constructor, the clock, `time.Parse` at the layout
`estimateBlockTimeFormat`, and the platform's out-of-range `int64(x)`. -/
structure Env where
  nemoGrpcUrl : String
  NewClient : String → Except String Client
  now : Time
  timeParse : String → Except String Time
  implInt64 : F64 → Int

/-- The observable steps of a run, in order. -/
inductive Event where
  | printEndpoint (url : String)
  | newClient (url : String)
  | printEstimating (desired : Time) (seconds : Int)
  | latestBlock (retries : Int)
  | block (height : Int) (retries : Int)
  | printWindow (numBlocks heightAtTime blocksUntilThen : Int) (avgBlockTime hours : F64)
  deriving DecidableEq

/-- The errors the command returns (each `fmt.Errorf` of the body), and the
argument-count error of `cobra.ExactArgs(1)`. -/
inductive CmdError where
  | badArgs (given : Nat)
  | createClient (cause : String)
  | parseTime (arg : String) (cause : String)
  | alreadyHappened (desired : Time)
  | fetchLatest (cause : String)
  | fetchBlock (height : Int) (cause : String)
  deriving DecidableEq

/-- A finished run: what it did and the error it returned (`none` is `nil`). -/
structure Run where
  log : List Event
  err : Option CmdError
  deriving DecidableEq

/-- The retry count `numRetries := 5`. -/
def numRetries : Int := 5

/-- The windows `blockAverages`. -/
def blockAverages : List Int := [10000, 50000, 75000, 100000]

/-- The value `secondsPassed` of one iteration: the tip's time minus the
fetched block's, in seconds. -/
def secondsPassed (currentBlock startBlock : Block) : F64 :=
  durationSeconds (timeSub currentBlock.Header.Time startBlock.Header.Time)

/-- The value `blocksPerSec := float64(numBlocks) / secondsPassed`. -/
def blocksPerSec (numBlocks : Int) (secondsPassed : F64) : F64 :=
  F64.div (f64OfInt64 numBlocks) secondsPassed

/-- The value `blocksUntilThen := int64(math.Round(blocksPerSec * secondsUntilThen))`. -/
def blocksUntilThen (env : Env) (blocksPerSec secondsUntilThen : F64) : Int :=
  int64OfF64 env.implInt64 (mathRound (F64.mul blocksPerSec secondsUntilThen))

/-- The arithmetic of one loop iteration, after its block was fetched: the
line it prints. -/
def windowLine (env : Env) (currentBlock startBlock : Block) (secondsUntilThen : F64)
    (numBlocks : Int) : Event :=
  let currentHeight := currentBlock.Header.Height
  let secondsPassed := secondsPassed currentBlock startBlock
  let blocksPerSec := blocksPerSec numBlocks secondsPassed
  let blocksUntilThen := blocksUntilThen env blocksPerSec secondsUntilThen
  let heightAtTime := addInt64 currentHeight blocksUntilThen
  let avgBlockTime := F64.div secondsPassed (f64OfInt64 numBlocks)
  .printWindow numBlocks heightAtTime blocksUntilThen avgBlockTime
    (F64.div secondsPassed (F64.ofNat 3600))

/-- The loop `for _, numBlocks := range blockAverages`, from the windows still
to do and the log so far. -/
def windowLoop (env : Env) (k : Client) (currentBlock : Block) (secondsUntilThen : F64) :
    List Int → List Event → Run
  | [], log => ⟨log, none⟩
  | numBlocks :: rest, log =>
    let height := subInt64 currentBlock.Header.Height numBlocks
    match k.Block height numRetries with
    | .error e => ⟨log ++ [.block height numRetries], some (.fetchBlock height e)⟩
    | .ok startBlock =>
      windowLoop env k currentBlock secondsUntilThen rest
        (log ++ [.block height numRetries,
                 windowLine env currentBlock startBlock secondsUntilThen numBlocks])

/-- The body `RunE` of the command, on its single argument. -/
def runE (env : Env) (arg : String) : Run :=
  let log := [Event.printEndpoint env.nemoGrpcUrl, .newClient env.nemoGrpcUrl]
  match env.NewClient env.nemoGrpcUrl with
  | .error e => ⟨log, some (.createClient e)⟩
  | .ok k =>
    let now := env.now
    match env.timeParse arg with
    | .error e => ⟨log, some (.parseTime arg e)⟩
    | .ok desiredTimeUTC =>
      if timeBefore desiredTimeUTC now then
        ⟨log, some (.alreadyHappened desiredTimeUTC)⟩
      else
        let secondsUntilThen := durationSeconds (timeSub desiredTimeUTC now)
        let log := log ++ [.printEstimating desiredTimeUTC
          (int64OfF64 env.implInt64 (mathRound secondsUntilThen)), .latestBlock numRetries]
        match k.LatestBlock numRetries with
        | .error e => ⟨log, some (.fetchLatest e)⟩
        | .ok currentBlock =>
          windowLoop env k currentBlock secondsUntilThen blockAverages log

/-- The command `estimate-block-height`: `cobra.ExactArgs(1)`, then `RunE`. -/
def EstimateBlockHeightCmd (env : Env) (args : List String) : Run :=
  match args with
  | [arg] => runE env arg
  | _ => ⟨[], some (.badArgs args.length)⟩

/-- The windows for which a result line was printed, in order. -/
def reportedWindows (log : List Event) : List Int :=
  log.filterMap fun e => match e with
    | .printWindow n _ _ _ _ => some n
    | _ => none

/-- The heights for which a block fetch was issued, in order. -/
def fetchedHeights (log : List Event) : List Int :=
  log.filterMap fun e => match e with
    | .block h _ => some h
    | _ => none

/-- Whether the fetch of the block `numBlocks` below the tip fails. -/
def fetchFails (k : Client) (currentBlock : Block) (numBlocks : Int) : Bool :=
  match k.Block (subInt64 currentBlock.Header.Height numBlocks) numRetries with
  | .ok _ => false
  | .error _ => true

/-- The windows the loop gets to: every window up to and including the first
whose fetch fails. -/
def attempted (k : Client) (currentBlock : Block) : List Int → List Int
  | [] => []
  | w :: rest => w :: (if fetchFails k currentBlock w then [] else attempted k currentBlock rest)

/-! ### Sample environments -/

/-- A client whose tip is `tip` and whose block at a height is `history`. -/
def sampleClient (tip : Block) (history : Int → Except String Block) : Client where
  LatestBlock := fun _ => .ok tip
  Block := fun h _ => history h

/-- An environment with the clock at `now` in which `2050-05-22T15:00` parses
to the instant `T`, with the amd64 result of an out-of-range `int64(x)`. -/
def sampleEnv (now T : Time) (k : Client) : Env where
  nemoGrpcUrl := "https://grpc.data.nemo.io:443"
  NewClient := fun _ => .ok k
  now := now
  timeParse := fun s => if s = "2050-05-22T15:00" then .ok T else .error "cannot parse"
  implInt64 := fun _ => minInt64

/-- The tip at height 1,000,000 with timestamp 0. -/
def tipMillion : Block := ⟨⟨1000000, 0⟩⟩

/-- A chain that made one block every ten seconds before the tip `tipMillion`. -/
def steadyClient : Client :=
  sampleClient tipMillion fun h => .ok ⟨⟨h, (h - 1000000) * 10000000000⟩⟩

/-- The target instant equals `now`. -/
def envTargetIsNow : Env := sampleEnv 50000000000000 50000000000000 steadyClient

/-- The target lies 50,000 seconds after `now`. -/
def envSteady : Env := sampleEnv 0 50000000000000 steadyClient

/-- As `steadyClient`, but the fetch of block 950,000 (the second window) fails. -/
def secondWindowFailsClient : Client :=
  sampleClient tipMillion fun h =>
    if h = 950000 then .error "rpc error" else .ok ⟨⟨h, (h - 1000000) * 10000000000⟩⟩

/-- The second window's fetch fails, the others would succeed. -/
def envSecondWindowFails : Env := sampleEnv 0 50000000000000 secondWindowFailsClient

/-- A young chain: the tip is at height 5,000, and the node has no block at a
negative height. -/
def youngClient : Client :=
  sampleClient ⟨⟨5000, 0⟩⟩ fun h =>
    if h < 0 then .error "height must be positive" else .ok ⟨⟨h, (h - 5000) * 10000000000⟩⟩

/-- The tip is lower than every window. -/
def envYoung : Env := sampleEnv 0 50000000000000 youngClient

/-- Every historical block carries a timestamp 10,000 seconds after the tip's. -/
def invertedClockClient : Client :=
  sampleClient tipMillion fun h => .ok ⟨⟨h, 10000000000000⟩⟩

/-- The sampled duration of every window is negative. -/
def envInvertedClock : Env := sampleEnv 0 50000000000000 invertedClockClient

/-- A chain that made one block every 15.6 seconds before the tip `tipMillion`. -/
def slowClient : Client :=
  sampleClient tipMillion fun h => .ok ⟨⟨h, (h - 1000000) * 15600000000⟩⟩

/-- The target lies 117 seconds after `now`, on the chain of `slowClient`. -/
def envSlow : Env := sampleEnv 0 117000000000 slowClient

/-- As `invertedClockClient`, but the fetch of block 950,000 (the second
window) fails. -/
def invertedSecondFailsClient : Client :=
  sampleClient tipMillion fun h =>
    if h = 950000 then .error "rpc error" else .ok ⟨⟨h, 10000000000000⟩⟩

/-- Negative sampled durations, and the second window's fetch fails. -/
def envInvertedSecondFails : Env := sampleEnv 0 50000000000000 invertedSecondFailsClient

end Estimate

end Nmtool

/-! ## `inflation avg` (cmd/inflation.go) -/

namespace Nmtool

namespace Inflation

/-- The two errors of `strconv`: `ErrSyntax` and `ErrRange`. -/
inductive NumError where
  | invalid
  | outOfRange
  deriving DecidableEq

/-- The value of a decimal digit. -/
def digitVal (c : Char) : Option Nat :=
  if '0' ≤ c ∧ c ≤ '9' then some (c.toNat - '0'.toNat) else none

/-- The digit loop of `strconv.ParseUint(s, 10, 64)`, from the characters
still to read and the value so far. -/
def parseUintLoop : List Char → Nat → Except NumError Nat
  | [], n => .ok n
  | c :: cs, n =>
    match digitVal c with
    | none => .error .invalid
    | some d =>
      if 1844674407370955162 ≤ n then .error .outOfRange
      else if 18446744073709551615 < n * 10 + d then .error .outOfRange
      else parseUintLoop cs (n * 10 + d)

/-- Go's `strconv.ParseUint(s, 10, 64)`. -/
def ParseUint (s : List Char) : Except NumError Nat :=
  match s with
  | [] => .error .invalid
  | _ => parseUintLoop s 0

/-- Go's `strconv.ParseInt(s, 10, 64)`. -/
def ParseInt (s : String) : Except NumError Int :=
  match s.toList with
  | [] => .error .invalid
  | c :: cs =>
    let neg := c == '-'
    let digits := if c == '+' || c == '-' then cs else c :: cs
    match ParseUint digits with
    | .error e => .error e
    | .ok un =>
      if !neg && 9223372036854775808 ≤ un then .error .outOfRange
      else if neg && 9223372036854775808 < un then .error .outOfRange
      else .ok (if neg then -(un : Int) else (un : Int))

/-- Modelled from the spec: the `InflationResult` of section 3, the value
`InflationOverBlocks` returns (declared in `nemoclient`, not in these files). -/
structure InflationResult where
  startHeight : Int
  endHeight : Int
  mintedAmount : ℚ
  elapsedSeconds : ℚ
  apr : ℚ
  apy : ℚ
  deriving DecidableEq

/-- Modelled from the spec: the error taxonomy of section 7, as far as the
inflation calculator raises it (the errors of `InflationOverBlocks`, which is
declared in `nemoclient`, not in these files). -/
inductive QueryError where
  | invalidRange (start finish : Int)
  | fetchError (height : Int) (cause : String)
  | clockInconsistency
  deriving DecidableEq

/-- Modelled from the spec: the remote reads of the inflation calculator
(section 6), made inside `InflationOverBlocks`, which is not in these files. -/
inductive Read where
  | mintedSupplyAt (height : Int)
  | atHeight (height : Int) (attempts : Nat)
  deriving DecidableEq

/-- The observable steps of a run, in order. -/
inductive Event where
  | printEndpoint (url : String)
  | newClient (url : String)
  | latestBlock (retries : Int)
  | inflationOverBlocks (start finish : Int)
  | read (r : Read)
  | printResult (result : InflationResult)
  deriving DecidableEq

/-- The remote client `k`, as far as the command uses it. A call of
`InflationOverBlocks` yields the remote reads it made and its result. -/
structure Client where
  LatestBlock : Int → Except String Block
  InflationOverBlocks : Int → Int → List Read × Except QueryError InflationResult

/-- What the command body reads from outside: the package variable
`nemoGrpcUrl` and the client constructor. -/
structure Env where
  nemoGrpcUrl : String
  NewClient : String → Except String Client

/-- The errors the command returns, and the argument-count error of
`cobra.MatchAll(cobra.MinimumNArgs(1), cobra.MaximumNArgs(2))`. -/
inductive CmdError where
  | badArgs (given : Nat)
  | fetchLatest (cause : String)
  | parseEnd (cause : NumError)
  | parseStart (cause : NumError)
  | startZero
  | query (cause : QueryError)
  deriving DecidableEq

/-- How a run ends: it returns (`none` is `nil`), or it panics. -/
inductive Exit where
  | returned (err : Option CmdError)
  | panicked (msg : String)
  deriving DecidableEq

/-- A finished run: what it did and how it ended. -/
structure Run where
  log : List Event
  exit : Exit
  deriving DecidableEq

/-- The client calls made by the resolution of `end`: the latest block is
fetched unless a second argument is given. -/
def endCalls (args : List String) : List Event :=
  match args with
  | [_, _] => []
  | _ => [.latestBlock 5]

/-- The resolution of `end` (the `if len(args) == 1` statement): the latest
block's height when only the start is given, else the parsed second argument. -/
def resolveEnd (k : Client) (args : List String) : Except CmdError Int :=
  match args with
  | [_, a1] =>
    match ParseInt a1 with
    | .error e => .error (.parseEnd e)
    | .ok v => .ok v
  | _ =>
    match k.LatestBlock 5 with
    | .error e => .error (.fetchLatest e)
    | .ok latest => .ok latest.Header.Height

/-- The resolution of a non-zero `start`: a negative value is a difference
from `end` (`start = end + start`), a positive one is kept. -/
def resolveStart (start finish : Int) : Int :=
  if start < 0 then addInt64 finish start else start

/-- The body `RunE` of `inflation avg`, on one or two arguments of which `a0`
is the first. -/
def runE (env : Env) (a0 : String) (args : List String) : Run :=
  let log := [Event.printEndpoint env.nemoGrpcUrl, .newClient env.nemoGrpcUrl]
  match env.NewClient env.nemoGrpcUrl with
  | .error e => ⟨log, .panicked ("failed to create nemo grpc client: " ++ e)⟩
  | .ok k =>
    match resolveEnd k args with
    | .error e => ⟨log ++ endCalls args, .returned (some e)⟩
    | .ok finish =>
      match ParseInt a0 with
      | .error e => ⟨log ++ endCalls args, .returned (some (.parseStart e))⟩
      | .ok start =>
        if start = 0 then ⟨log ++ endCalls args, .returned (some .startZero)⟩
        else
          let start := resolveStart start finish
          match k.InflationOverBlocks start finish with
          | (reads, .error e) =>
            ⟨log ++ endCalls args ++ [.inflationOverBlocks start finish] ++ reads.map .read,
              .returned (some (.query e))⟩
          | (reads, .ok result) =>
            ⟨log ++ endCalls args ++ [.inflationOverBlocks start finish] ++ reads.map .read ++
              [.printResult result], .returned none⟩

/-- The command `inflation avg`: the argument-count check, then `RunE`. -/
def AverageInflation (env : Env) (args : List String) : Run :=
  match args with
  | [a0] => runE env a0 args
  | [a0, _] => runE env a0 args
  | _ => ⟨[], .returned (some (.badArgs args.length))⟩

/-- The calls of `InflationOverBlocks` in a log, as `(start, end)` pairs. -/
def queries (log : List Event) : List (Int × Int) :=
  log.filterMap fun e => match e with
    | .inflationOverBlocks s f => some (s, f)
    | _ => none

/-- The heights at which the minted supply was read, in order. -/
def supplyReads (log : List Event) : List Int :=
  log.filterMap fun e => match e with
    | .read (.mintedSupplyAt h) => some h
    | _ => none

/-! ### The inflation calculator of the spec -/

/-- Modelled from the spec: the operations consumed from the RPC client
(section 6), `atHeight(height, maxAttempts)` and `mintedSupplyAt(height)`; with
the constants the calculator is given: the attempt bound, the seconds of a
year, and the power function of step 8. -/
structure Fetcher where
  atHeight : Int → Nat → Except String Block
  mintedSupplyAt : Int → Except String ℚ
  maxAttempts : Nat
  secondsPerYear : ℚ
  pow : ℚ → ℚ → ℚ

/-- Modelled from the spec: `InflationOverBlocks` of `nemoclient`, which is not
in these files; steps 2 to 9 of section 4.3. The range is validated first
(`end > start`, else `InvalidRange`); then the minted supply is read at `start`
and at `end`, and the two timestamps; a failing read surfaces as it is; the
elapsed time must be positive, else `ClockInconsistency`; the rate is the
minted amount over the supply at `start`, the APR that rate times the seconds
of a year, the APY the rate compounded over the observed period. -/
def InflationOverBlocks (f : Fetcher) (start finish : Int) :
    List Read × Except QueryError InflationResult :=
  if ¬ (finish > start) then ([], .error (.invalidRange start finish))
  else
    match f.mintedSupplyAt start with
    | .error c => ([.mintedSupplyAt start], .error (.fetchError start c))
    | .ok supplyStart =>
      match f.mintedSupplyAt finish with
      | .error c => ([.mintedSupplyAt start, .mintedSupplyAt finish], .error (.fetchError finish c))
      | .ok supplyEnd =>
        match f.atHeight start f.maxAttempts with
        | .error c =>
          ([.mintedSupplyAt start, .mintedSupplyAt finish, .atHeight start f.maxAttempts],
            .error (.fetchError start c))
        | .ok blockStart =>
          match f.atHeight finish f.maxAttempts with
          | .error c =>
            ([.mintedSupplyAt start, .mintedSupplyAt finish, .atHeight start f.maxAttempts,
              .atHeight finish f.maxAttempts], .error (.fetchError finish c))
          | .ok blockEnd =>
            let reads := [Read.mintedSupplyAt start, .mintedSupplyAt finish,
              .atHeight start f.maxAttempts, .atHeight finish f.maxAttempts]
            let mintedAmount := supplyEnd - supplyStart
            let elapsedSeconds := secondsOf (timeSub blockEnd.Header.Time blockStart.Header.Time)
            if ¬ (elapsedSeconds > 0) then (reads, .error .clockInconsistency)
            else
              let ratePerSecond := mintedAmount / supplyStart
              let apr := ratePerSecond * f.secondsPerYear
              let apy := f.pow (1 + ratePerSecond * elapsedSeconds)
                (f.secondsPerYear / elapsedSeconds) - 1
              (reads, .ok ⟨start, finish, mintedAmount, elapsedSeconds, apr, apy⟩)

/-- The client whose `InflationOverBlocks` is the calculator of the spec over
the fetcher `f`. -/
def specClient (latest : Except String Block) (f : Fetcher) : Client where
  LatestBlock := fun _ => latest
  InflationOverBlocks := InflationOverBlocks f

/-! ### Sample environments -/

/-- A query that reads nothing and reports the heights it was given. -/
def echoQuery (start finish : Int) : List Read × Except QueryError InflationResult :=
  ([], .ok ⟨start, finish, 0, 1, 0, 0⟩)

/-- A client whose tip is at height 3,000,000 and whose query is `echoQuery`. -/
def echoClient : Client where
  LatestBlock := fun _ => .ok ⟨⟨3000000, 0⟩⟩
  InflationOverBlocks := echoQuery

/-- The environment of `echoClient`. -/
def envEcho : Env where
  nemoGrpcUrl := "https://grpc.data.nemo.io:443"
  NewClient := fun _ => .ok echoClient

/-- A chain with a block every ten seconds and one coin minted per block on
top of 100,000,000; simple interest stands in for the power function. -/
def linearFetcher : Fetcher where
  atHeight := fun h _ => .ok ⟨⟨h, h * 10000000000⟩⟩
  mintedSupplyAt := fun h => .ok (100000000 + h)
  maxAttempts := 5
  secondsPerYear := 31536000
  pow := fun b e => 1 + (b - 1) * e

/-- The environment of the spec's calculator over `linearFetcher`. -/
def envSpec : Env where
  nemoGrpcUrl := "https://grpc.data.nemo.io:443"
  NewClient := fun _ => .ok (specClient (.ok ⟨⟨3000000, 30000000000000000⟩⟩) linearFetcher)

end Inflation

end Nmtool

/-! ## `swap-id` (cmd/swap_id.go) -/

namespace Nmtool

namespace SwapID

/-- A byte string: an address, a hash, a swap ID. -/
abbrev Bytes := List Nat

/-- The mainnet deputies on the nemo chain, by denomination. -/
def nemoDeputiesStrings : List (String × String) :=
  [("bnb", "fury1r4v2zdhdalfj2ydazallqvrus9fkphmgnfwgej"),
   ("btcb", "fury14qsmvzprqvhwmgql9fr0u3zv9n2qla8zmdxxys"),
   ("busd", "fury1hh4x3a4suu5zyaeauvmv7ypf7w9llwlfsh0fe5"),
   ("xrpb", "fury1c0ju5vnwgpgxnrktfnkccuth9xqc68dcpllncc")]

/-- The mainnet deputies on the binance chain, by denomination. -/
def bnbDeputiesStrings : List (String × String) :=
  [("bnb", "bnb1jh7uv2rm6339yue8k4mj9406k3509kr4wt5nxn"),
   ("btcb", "bnb1xz3xqf4p2ygrw9lhp5g5df4ep4nd20vsywnmpr"),
   ("busd", "bnb10zq89008gmedc6rrwzdfukjk94swynd7dl97w8"),
   ("xrpb", "bnb15jzuvvg2kf0fka3fl2c8rx0kc3g6wkmvsqhgnh")]

/-- The result `(addr, err)` of decoding an address; `none` is the nil error. -/
abbrev Decoded := Bytes × Option String

/-- The library functions the command calls: `hex.DecodeString`,
`hex.EncodeToString`, `yaml.Marshal` of the two-field result,
`sdk.AccAddressFromBech32` and `binance.AccAddressFromBech32`, the `String`
methods of the two address types, and the two `CalculateSwapID`. -/
structure Env where
  hexDecodeString : String → Except String Bytes
  hexEncodeToString : Bytes → String
  yamlMarshal : String → String → String × Option String
  nemoAccAddressFromBech32 : String → Decoded
  bnbAccAddressFromBech32 : String → Decoded
  nemoString : Bytes → String
  bnbString : Bytes → String
  nemoCalculateSwapID : Bytes → Bytes → String → Bytes
  bnbCalculateSwapID : Bytes → Bytes → String → Bytes

/-- The errors the command returns. -/
inductive CmdError where
  | badArgs (given : Nat)
  | hexDecode (cause : String)
  | cantUnmarshalSender (errNemo errBnb : String)
  | senderIsNemoDeputy (dep : Bytes)
  | senderIsBnbDeputy (dep : Bytes)
  | cantUnmarshalDeputyAsBnb (cause : String)
  | cantUnmarshalDeputyAsNemo (cause : String)
  | format (cause : String)
  deriving DecidableEq

/-- How a run ends: it returns (`none` is `nil`), or it panics. -/
inductive Exit where
  | returned (err : Option CmdError)
  | panicked (cause : String)
  deriving DecidableEq

/-- A finished run: the lines printed and how it ended. -/
structure Run where
  out : List String
  exit : Exit
  deriving DecidableEq

/-- The functions `mustNemoAccAddressFromBech32` and
`mustBnbAccAddressFromBech32` over a decoder: `none` is the panic. -/
def mustAccAddressFromBech32 (decode : String → Decoded) (address : String) : Option Bytes :=
  match decode address with
  | (_, some _) => none
  | (a, none) => some a

/-- The loop that fills a deputies map from its strings: `none` when a
`must` decoding panics. -/
def buildDeputies (decode : String → Decoded) :
    List (String × String) → Option (List (String × Bytes))
  | [] => some []
  | (k, v) :: rest =>
    match mustAccAddressFromBech32 decode v, buildDeputies decode rest with
    | some a, some m => some ((k, a) :: m)
    | _, _ => none

/-- The function `formatResults`. -/
def formatResults (env : Env) (swapIDNemo swapIDBnb : Bytes) : String × Option String :=
  env.yamlMarshal (env.hexEncodeToString swapIDNemo) (env.hexEncodeToString swapIDBnb)

/-- The tail of `RunE`: format the two IDs and print them. -/
def printResults (env : Env) (swapIDNemo swapIDBnb : Bytes) : Run :=
  match formatResults env swapIDNemo swapIDBnb with
  | (_, some e) => ⟨[], .returned (some (.format e))⟩
  | (outString, none) => ⟨[outString], .returned none⟩

/-- The value `isNemoAddress := errNemo == nil && errBnb != nil`. -/
def isNemoAddress (errNemo errBnb : Option String) : Bool :=
  errNemo.isNone && errBnb.isSome

/-- The value `isBnbAddress := errNemo != nil && errBnb == nil`. -/
def isBnbAddress (errNemo errBnb : Option String) : Bool :=
  errNemo.isSome && errBnb.isNone

/-- Whether the branch guarded by `!isNemoAddress && !isBnbAddress` is taken. -/
def takesErrorBranch (errNemo errBnb : Option String) : Bool :=
  !isNemoAddress errNemo errBnb && !isBnbAddress errNemo errBnb

/-- The statement of the error branch:
`fmt.Errorf("can't unmarshal ...", errNemo.Error(), errBnb.Error())`. Calling
`Error` on a nil error panics with the runtime's nil-dereference error. -/
def errorBranch (errNemo errBnb : Option String) : Exit :=
  match errNemo, errBnb with
  | some msgNemo, some msgBnb => .returned (some (.cantUnmarshalSender msgNemo msgBnb))
  | _, _ => .panicked "runtime error: invalid memory address or nil pointer dereference"

/-- The deputy address: the mainnet deputy of that denomination, else the
argument decoded as an address. -/
def pickDeputy (deputies : List (String × Bytes)) (decode : String → Decoded)
    (depArg : String) : Decoded :=
  match deputies.lookup depArg with
  | some dep => (dep, none)
  | none => decode depArg

/-- The body `RunE` of the command on its three arguments, given the two
deputies maps. -/
def runE (env : Env) (nemoDeputies bnbDeputies : List (String × Bytes))
    (a0 a1 a2 : String) : Run :=
  match env.hexDecodeString a0 with
  | .error e => ⟨[], .returned (some (.hexDecode e))⟩
  | .ok randomNumberHash =>
    let (addressNemo, errNemo) := env.nemoAccAddressFromBech32 a1
    let (addressBnb, errBnb) := env.bnbAccAddressFromBech32 a1
    if takesErrorBranch errNemo errBnb then ⟨[], errorBranch errNemo errBnb⟩
    else
      let depArg := a2
      if isNemoAddress errNemo errBnb then
        match nemoDeputies.find? (fun d => decide (addressNemo = d.2)) with
        | some d => ⟨[], .returned (some (.senderIsNemoDeputy d.2))⟩
        | none =>
          match pickDeputy bnbDeputies env.bnbAccAddressFromBech32 depArg with
          | (_, some e) => ⟨[], .returned (some (.cantUnmarshalDeputyAsBnb e))⟩
          | (bnbDeputy, none) =>
            let swapIDNemo :=
              env.nemoCalculateSwapID randomNumberHash addressNemo (env.bnbString bnbDeputy)
            let swapIDBnb :=
              env.bnbCalculateSwapID randomNumberHash bnbDeputy (env.nemoString addressNemo)
            printResults env swapIDNemo swapIDBnb
      else
        match bnbDeputies.find? (fun d => decide (addressBnb = d.2)) with
        | some d => ⟨[], .returned (some (.senderIsBnbDeputy d.2))⟩
        | none =>
          match pickDeputy nemoDeputies env.nemoAccAddressFromBech32 depArg with
          | (_, some e) => ⟨[], .returned (some (.cantUnmarshalDeputyAsNemo e))⟩
          | (nemoDeputy, none) =>
            let swapIDBnb :=
              env.bnbCalculateSwapID randomNumberHash addressBnb (env.nemoString nemoDeputy)
            let swapIDNemo :=
              env.nemoCalculateSwapID randomNumberHash nemoDeputy (env.bnbString addressBnb)
            printResults env swapIDNemo swapIDBnb

/-- The command `swap-id`: the deputies maps are built (a `must` decoding may
panic), the argument count is checked (`cobra.ExactArgs(3)`), then `RunE`. -/
def SwapIDCmd (env : Env) (args : List String) : Run :=
  match buildDeputies env.nemoAccAddressFromBech32 nemoDeputiesStrings,
      buildDeputies env.bnbAccAddressFromBech32 bnbDeputiesStrings with
  | some nemoDeputies, some bnbDeputies =>
    match args with
    | [a0, a1, a2] => runE env nemoDeputies bnbDeputies a0 a1 a2
    | _ => ⟨[], .returned (some (.badArgs args.length))⟩
  | _, _ => ⟨[], .panicked "must decode"⟩

/-! ### Sample environments -/

/-- The address bytes a sample decoder gives a string: its characters. -/
def sampleBytes (s : String) : Bytes := s.toList.map Char.toNat

/-- A decoder that accepts the strings starting with `hrp`. -/
def prefixDecoder (hrp : String) (s : String) : Decoded :=
  if hrp.toList.isPrefixOf s.toList then (sampleBytes s, none)
  else ([], some "invalid Bech32 prefix")

/-- An environment over two decoders. -/
def sampleEnv (nemoDecode bnbDecode : String → Decoded) : Env where
  hexDecodeString := fun s => .ok (sampleBytes s)
  hexEncodeToString := fun b => String.mk (b.map Char.ofNat)
  yamlMarshal := fun a b => ("nemo_swap_id: " ++ a ++ " bnb_swap_id: " ++ b, none)
  nemoAccAddressFromBech32 := nemoDecode
  bnbAccAddressFromBech32 := bnbDecode
  nemoString := fun b => String.mk (b.map Char.ofNat)
  bnbString := fun b => String.mk (b.map Char.ofNat)
  nemoCalculateSwapID := fun h a s => h ++ a ++ sampleBytes s
  bnbCalculateSwapID := fun h a s => h ++ a ++ sampleBytes s

/-- The two decoders tell the chains apart by the prefix. -/
def envDisjoint : Env := sampleEnv (prefixDecoder "fury1") (prefixDecoder "bnb1")

/-- The arguments of the command's own example. -/
def exampleArgs : List String :=
  ["464105c245199d02a4289475b8b231f3f73918b6f0fdad898825186950d46f36",
   "bnb10rr5f8m73rxgnz9afvnfn7fn9pwhfskem5kn0x", "busd"]

/-- An exit that is a return, and not with the sender-address error. -/
def ReturnsOther (x : Exit) : Prop :=
  ∃ e, x = .returned e ∧ ∀ m n, e ≠ some (.cantUnmarshalSender m n)

end SwapID

end Nmtool

/-! ## Facts about the arithmetic -/

namespace Nmtool

theorem wrapInt64_of_inInt64 {x : Int} (h : inInt64 x) : wrapInt64 x = x := by
  unfold inInt64 minInt64 maxInt64 at h
  unfold wrapInt64
  rw [Int.emod_eq_of_lt (by omega) (by omega)]
  omega

theorem inInt64_wrapInt64 (x : Int) : inInt64 (wrapInt64 x) := by
  unfold inInt64 minInt64 maxInt64 wrapInt64
  constructor <;> omega

theorem unitsPerOne_pos : 0 < unitsPerOne := Nat.two_pow_pos 1074

theorem log2Search_spec (n : Nat) (i acc : Nat)
    (hlo : 2 ^ acc ≤ n) (hhi : n < 2 ^ (acc + 2 ^ i)) :
    2 ^ log2Search n i acc ≤ n ∧ n < 2 ^ (log2Search n i acc + 1) := by
  induction i generalizing acc with
  | zero => simpa [log2Search] using ⟨hlo, hhi⟩
  | succ i ih =>
    unfold log2Search
    split
    · rename_i h
      exact ih _ h (by rw [Nat.add_assoc, ← Nat.two_mul, ← Nat.pow_succ']; exact hhi)
    · rename_i h
      exact ih _ hlo (Nat.lt_of_not_le h)

theorem expBound_spec (n : Nat) (fuel i : Nat) (h : n < 2 ^ 2 ^ (i + fuel)) :
    n < 2 ^ 2 ^ expBound n fuel i := by
  induction fuel generalizing i with
  | zero => simpa [expBound] using h
  | succ fuel ih =>
    unfold expBound
    split
    · assumption
    · exact ih _ (by rw [Nat.add_assoc, Nat.add_comm 1 fuel]; exact h)

/-- A non-zero `n` has exactly `bitLength n` binary digits. -/
theorem bitLength_spec {n : Nat} (hn : n ≠ 0) :
    2 ^ (bitLength n - 1) ≤ n ∧ n < 2 ^ bitLength n := by
  have hb : n < 2 ^ 2 ^ expBound n n 0 := by
    apply expBound_spec
    rw [Nat.zero_add]
    exact lt_trans (Nat.lt_two_pow n) (Nat.pow_lt_pow_right (by decide) (Nat.lt_two_pow n))
  have := log2Search_spec n (expBound n n 0) 0 (by simpa using Nat.pos_of_ne_zero hn)
    (by simpa using hb)
  simpa [bitLength, hn] using this

/-- Where the quotient has more than 53 binary digits, the spacing `2 ^ s` of
the candidates is at most `2^-52` of it. -/
theorem spacing_le {n : Nat} (hs : 0 < bitLength n - 53) :
    2 ^ (bitLength n - 53 + 52) ≤ n := by
  have hn : n ≠ 0 := by
    intro h0
    simp [bitLength, h0] at hs
  have h := (bitLength_spec hn).1
  have he : bitLength n - 53 + 52 = bitLength n - 1 := by omega
  rw [he]
  exact h

theorem roundUnits_eq (p q : Nat) :
    roundUnits p q =
      (if q * 2 ^ (bitLength (p / q) - 53) < 2 * (p % (q * 2 ^ (bitLength (p / q) - 53))) ∨
          (2 * (p % (q * 2 ^ (bitLength (p / q) - 53))) = q * 2 ^ (bitLength (p / q) - 53) ∧
            p / (q * 2 ^ (bitLength (p / q) - 53)) % 2 = 1)
        then p / (q * 2 ^ (bitLength (p / q) - 53)) + 1
        else p / (q * 2 ^ (bitLength (p / q) - 53))) * 2 ^ (bitLength (p / q) - 53) := rfl

/-- Rounding moves a magnitude by less than one spacing: the result lies
between the two candidates around the quotient. -/
theorem roundUnits_bounds (p q : Nat) :
    p / q / 2 ^ (bitLength (p / q) - 53) * 2 ^ (bitLength (p / q) - 53) ≤ roundUnits p q ∧
    roundUnits p q ≤
      (p / q / 2 ^ (bitLength (p / q) - 53) + 1) * 2 ^ (bitLength (p / q) - 53) := by
  rw [roundUnits_eq, ← Nat.div_div_eq_div_mul]
  split
  · exact ⟨Nat.mul_le_mul_right _ (Nat.le_succ _), le_refl _⟩
  · exact ⟨le_refl _, Nat.mul_le_mul_right _ (Nat.le_succ _)⟩

theorem roundUnits_le (p q : Nat) : roundUnits p q ≤ 2 * (p / q) + 1 := by
  have hb := (roundUnits_bounds p q).2
  have hdiv : p / q / 2 ^ (bitLength (p / q) - 53) * 2 ^ (bitLength (p / q) - 53) ≤ p / q :=
    Nat.div_mul_le_self _ _
  rcases Nat.eq_zero_or_pos (bitLength (p / q) - 53) with h0 | hpos
  · rw [h0] at hb hdiv
    simp at hb hdiv
    omega
  · have hsp := spacing_le hpos
    have h2 : 2 ^ (bitLength (p / q) - 53) ≤ 2 ^ (bitLength (p / q) - 53 + 52) :=
      Nat.pow_le_pow_right (by decide) (Nat.le_add_right _ _)
    rw [Nat.add_mul, Nat.one_mul] at hb
    omega

theorem le_two_mul_roundUnits (p q : Nat) : p / q ≤ 2 * roundUnits p q := by
  have hb := (roundUnits_bounds p q).1
  have hlt : p / q < 2 ^ (bitLength (p / q) - 53) * (p / q / 2 ^ (bitLength (p / q) - 53) + 1) :=
    Nat.lt_mul_div_succ _ (Nat.pow_pos (by decide))
  rcases Nat.eq_zero_or_pos (bitLength (p / q) - 53) with h0 | hpos
  · rw [h0] at hb
    simp at hb
    omega
  · have hsp := spacing_le hpos
    have h2 : 2 ^ (bitLength (p / q) - 53) ≤ 2 ^ (bitLength (p / q) - 53 + 52) :=
      Nat.pow_le_pow_right (by decide) (Nat.le_add_right _ _)
    have hm : 1 ≤ p / q / 2 ^ (bitLength (p / q) - 53) :=
      (Nat.one_le_div_iff (Nat.pow_pos (by decide))).mpr (le_trans h2 hsp)
    have hmul : 2 ^ (bitLength (p / q) - 53) ≤
        p / q / 2 ^ (bitLength (p / q) - 53) * 2 ^ (bitLength (p / q) - 53) :=
      Nat.le_mul_of_pos_left _ hm
    rw [Nat.mul_add, Nat.mul_one, Nat.mul_comm] at hlt
    omega

theorem roundUnits_pos {p q : Nat} (hq : 0 < q) (hpq : q ≤ p) : 0 < roundUnits p q := by
  have h1 : 1 ≤ p / q := (Nat.one_le_div_iff hq).mpr hpq
  have := le_two_mul_roundUnits p q
  omega

theorem roundUnits_zero (q : Nat) : roundUnits 0 q = 0 := by
  have := roundUnits_le 0 q
  have hb := (roundUnits_bounds 0 q).2
  simp [bitLength] at hb
  rw [roundUnits_eq]
  simp [bitLength]

/-- The unit is tiny: there are at least `2^100` units in 1. -/
theorem unitsPerOne_large : 1267650600228229401496703205376 ≤ unitsPerOne := by
  have h : (2 : Nat) ^ 100 ≤ 2 ^ 1074 := Nat.pow_le_pow_right (by omega) (by omega)
  have e : (2 : Nat) ^ 100 = 1267650600228229401496703205376 := by norm_num
  rw [e] at h
  exact h

/-- Overflow is far away: `2^100` is still finite. -/
theorem overflowUnits_large : 1267650600228229401496703205376 * unitsPerOne ≤ overflowUnits := by
  have h : (2 : Nat) ^ 100 ≤ 2 ^ 1024 := Nat.pow_le_pow_right (by omega) (by omega)
  have e : (2 : Nat) ^ 100 = 1267650600228229401496703205376 := by norm_num
  have ho : overflowUnits = 2 ^ 1024 * unitsPerOne := by
    unfold overflowUnits unitsPerOne
    rw [← Nat.pow_add]
  rw [ho, ← e]
  exact Nat.mul_le_mul_right _ h

theorem mul_le_mul_of_half (M U k : Nat) (h1 : 2 * M ≤ U) (h : U ≤ 2 * k) :
    M * U ≤ k * U :=
  Nat.mul_le_mul_right _ (by omega)

/-- A magnitude of a half or more, counted in units, is past the overflow
bound. -/
theorem overflowUnits_le_mul {k : Nat} (h : unitsPerOne ≤ 2 * k) :
    overflowUnits ≤ k * unitsPerOne := by
  have ho : overflowUnits = 2 ^ 1024 * unitsPerOne := by
    unfold overflowUnits unitsPerOne
    rw [← Nat.pow_add]
  have e : unitsPerOne = 2 * 2 ^ 1024 * 2 ^ 49 := by
    unfold unitsPerOne
    rw [← Nat.pow_succ', ← Nat.pow_add]
  have h1 : 2 * 2 ^ 1024 ≤ unitsPerOne := by
    rw [e]
    exact Nat.le_mul_of_pos_right _ (Nat.two_pow_pos 49)
  rw [ho]
  exact mul_le_mul_of_half _ _ _ h1 h

theorem ofExact_fin {s : Bool} {p q : Nat} (h : roundUnits p q < overflowUnits) :
    F64.ofExact s p q = .fin s (roundUnits p q) := by
  unfold F64.ofExact
  rw [if_neg (Nat.not_le.mpr h)]

/-- A result of `ofExact` is an infinity of its sign or a finite value of its
sign below the overflow bound. -/
theorem ofExact_cases (s : Bool) (p q : Nat) :
    F64.ofExact s p q = .inf s ∨
      (F64.ofExact s p q = .fin s (roundUnits p q) ∧ roundUnits p q < overflowUnits) := by
  unfold F64.ofExact
  split
  · left; rfl
  · rename_i h
    right; exact ⟨rfl, Nat.not_le.mp h⟩

/-- The conversion of a whole number of at most 64 bits: finite, of the given
sign, and within a factor two of the number. -/
theorem ofExact_whole (s : Bool) (a : Nat) (ha : a ≤ 18446744073709551616) :
    ∃ k, F64.ofExact s (a * unitsPerOne) 1 = .fin s k ∧ a * unitsPerOne ≤ 2 * k ∧
      k ≤ 2 * (a * unitsPerOne) + 1 ∧ (a = 0 → k = 0) := by
  have hle := roundUnits_le (a * unitsPerOne) 1
  have hge := le_two_mul_roundUnits (a * unitsPerOne) 1
  rw [Nat.div_one] at hle hge
  have hU := unitsPerOne_pos
  have hO := overflowUnits_large
  have hmul : a * unitsPerOne ≤ 18446744073709551616 * unitsPerOne :=
    Nat.mul_le_mul_right _ ha
  refine ⟨roundUnits (a * unitsPerOne) 1, ofExact_fin (by omega), hge, hle, ?_⟩
  intro h0
  rw [h0, Nat.zero_mul]
  exact roundUnits_zero 1

/-- The conversion `float64(n)` of an `int64`. -/
theorem f64OfInt64_fin (n : Int) (hn : n.natAbs ≤ 9223372036854775808) :
    ∃ k, f64OfInt64 n = .fin (decide (n < 0)) k ∧ n.natAbs * unitsPerOne ≤ 2 * k ∧
      k ≤ 2 * (n.natAbs * unitsPerOne) + 1 ∧ (n = 0 → k = 0) := by
  obtain ⟨k, h1, h2, h3, h4⟩ := ofExact_whole (decide (n < 0)) n.natAbs (by omega)
  exact ⟨k, h1, h2, h3, fun h0 => h4 (by simp [h0])⟩

theorem tdiv_neg_nat (e : Nat) :
    Int.tdiv (-(e : Int)) 1000000000 = -((e / 1000000000 : Nat) : Int) := by
  rw [Int.neg_tdiv]
  rfl

theorem tmod_neg_nat (e : Nat) :
    Int.tmod (-(e : Int)) 1000000000 = -((e % 1000000000 : Nat) : Int) := by
  rw [Int.tmod_def, tdiv_neg_nat]
  have h := Nat.div_add_mod e 1000000000
  omega

/-- The conversion of the negation of a natural number of at most 63 bits. -/
theorem f64OfInt64_neg_nat (a : Nat) (ha : a ≤ 9223372036854775808) :
    ∃ k, f64OfInt64 (-(a : Int)) = .fin (decide (0 < a)) k ∧ a * unitsPerOne ≤ 2 * k ∧
      k ≤ 2 * (a * unitsPerOne) + 1 ∧ (a = 0 → k = 0) := by
  obtain ⟨k, h1, h2, h3, h4⟩ := f64OfInt64_fin (-(a : Int)) (by simpa using ha)
  have hs : decide (-(a : Int) < 0) = decide (0 < a) := by
    by_cases h : 0 < a
    · simp [h]
    · simp [h]
  rw [hs] at h1
  simp only [Int.natAbs_neg, Int.natAbs_ofNat] at h2 h3
  exact ⟨k, h1, h2, h3, fun h0 => h4 (by simp [h0])⟩

/-- The constant `1e9`. -/
theorem ofNat_billion :
    ∃ c, F64.ofNat 1000000000 = .fin false c ∧ 1000000000 * unitsPerOne ≤ 2 * c ∧
      c ≤ 2 * (1000000000 * unitsPerOne) + 1 := by
  obtain ⟨c, h1, h2, h3, _⟩ := ofExact_whole false 1000000000 (by omega)
  exact ⟨c, h1, h2, h3⟩

/-- The quotient `float64(nsec)/1e9` of a nanosecond part below zero or zero. -/
theorem nsec_quotient (a : Nat) (ha : a < 1000000000) :
    ∃ k, F64.div (f64OfInt64 (-(a : Int))) (F64.ofNat 1000000000) = .fin (decide (0 < a)) k ∧
      (0 < a → 0 < k) ∧ (a = 0 → k = 0) ∧
      k ≤ 8000000000 * unitsPerOne + 3 := by
  obtain ⟨k2, h1, h2, h3, h4⟩ := f64OfInt64_neg_nat a (by omega)
  obtain ⟨c, hc1, hc2, hc3⟩ := ofNat_billion
  have hU := unitsPerOne_large
  have hO := overflowUnits_large
  have hc0 : c ≠ 0 := by omega
  have hcU : unitsPerOne ≤ c := by omega
  have haU : a * unitsPerOne ≤ 1000000000 * unitsPerOne := Nat.mul_le_mul_right _ (by omega)
  have hdiv : k2 * unitsPerOne / c ≤ k2 :=
    Nat.div_le_of_le_mul (by rw [Nat.mul_comm c k2]; exact Nat.mul_le_mul_left _ hcU)
  have hle := roundUnits_le (k2 * unitsPerOne) c
  rw [h1, hc1]
  simp only [F64.div, if_neg hc0, Bool.xor_false]
  rw [ofExact_fin (by omega)]
  refine ⟨_, rfl, fun hpos => ?_, fun h0 => ?_, by omega⟩
  · apply roundUnits_pos (by omega)
    have hk2 : 2000000001 ≤ k2 := by
      have : 1 * unitsPerOne ≤ a * unitsPerOne := Nat.mul_le_mul_right _ hpos
      omega
    have : 2000000001 * unitsPerOne ≤ k2 * unitsPerOne := Nat.mul_le_mul_right _ hk2
    omega
  · rw [h4 h0, Nat.zero_mul]
    exact roundUnits_zero c

/-- The seconds of a negative duration are a finite value below zero. -/
theorem durationSeconds_neg (d : Int) (hlo : minInt64 ≤ d) (hneg : d < 0) :
    ∃ k, durationSeconds d = .fin true k ∧ 0 < k ∧ k < overflowUnits := by
  unfold minInt64 at hlo
  obtain ⟨e, he⟩ : ∃ e : Nat, d = -(e : Int) := ⟨d.natAbs, by omega⟩
  subst he
  have he1 : 1 ≤ e := by omega
  have he2 : e ≤ 9223372036854775808 := by omega
  have hdm := Nat.div_add_mod e 1000000000
  have hml := Nat.mod_lt e (by omega : 0 < 1000000000)
  obtain ⟨k1, h1, h1a, h1b, h1c⟩ := f64OfInt64_neg_nat (e / 1000000000) (by omega)
  obtain ⟨kx, hx, hxa, hxb, hxc⟩ := nsec_quotient (e % 1000000000) hml
  have hU := unitsPerOne_large
  have hO := overflowUnits_large
  have ha1U : e / 1000000000 * unitsPerOne ≤ 9223372037 * unitsPerOne :=
    Nat.mul_le_mul_right _ (by omega)
  unfold durationSeconds
  rw [tdiv_neg_nat, tmod_neg_nat, h1, hx]
  by_cases hq : 0 < e / 1000000000 <;> by_cases hr : 0 < e % 1000000000
  · have hk1 : 0 < k1 := by
      have : 1 * unitsPerOne ≤ e / 1000000000 * unitsPerOne := Nat.mul_le_mul_right _ hq
      omega
    have hkx := hxa hr
    have hle := roundUnits_le (k1 + kx) 1
    rw [Nat.div_one] at hle
    simp only [hq, hr, decide_True, F64.add, if_true]
    rw [ofExact_fin (by omega)]
    exact ⟨_, rfl, roundUnits_pos (by omega) (by omega), by omega⟩
  · have hk1 : 0 < k1 := by
      have : 1 * unitsPerOne ≤ e / 1000000000 * unitsPerOne := Nat.mul_le_mul_right _ hq
      omega
    have hkx : kx = 0 := hxb (by omega)
    have hle := roundUnits_le (k1 - 0) 1
    rw [Nat.div_one] at hle
    subst hkx
    simp only [hq, hr, decide_True, decide_False, F64.add, Bool.true_eq_false, if_false,
      Nat.ne_of_gt hk1, hk1, if_true]
    rw [ofExact_fin (by omega)]
    exact ⟨_, rfl, roundUnits_pos (by omega) (by omega), by omega⟩
  · have hk1 : k1 = 0 := h1c (by omega)
    have hkx := hxa hr
    have hle := roundUnits_le (kx - 0) 1
    rw [Nat.div_one] at hle
    subst hk1
    simp only [hq, hr, decide_True, decide_False, F64.add, Bool.false_eq_true, if_false,
      Nat.ne_of_lt hkx, Nat.not_lt_zero]
    rw [ofExact_fin (by omega)]
    exact ⟨_, rfl, roundUnits_pos (by omega) (by omega), by omega⟩
  · omega

/-- The seconds of the zero duration are `+0`. -/
theorem durationSeconds_zero : durationSeconds 0 = .fin false 0 := by decide!

theorem isNearestHalfAway_unique {q : ℚ} {r s : Int}
    (hr : IsNearestHalfAway q r) (hs : IsNearestHalfAway q s) : r = s := by
  unfold IsNearestHalfAway at hr hs
  by_contra hne
  rcases lt_or_gt_of_ne hne with hlt | hgt
  · have h1 : (r : ℚ) + 1 ≤ s := by exact_mod_cast hlt
    rcases hr with hr | ⟨hr, hr2⟩ <;> rcases hs with hs | ⟨hs, hs2⟩
    · rw [abs_lt] at hr hs; linarith
    · rw [abs_lt] at hr
      rcases abs_eq (by norm_num : (0 : ℚ) ≤ 1 / 2) |>.mp hs with h | h <;> linarith
    · rw [abs_lt] at hs
      rcases abs_eq (by norm_num : (0 : ℚ) ≤ 1 / 2) |>.mp hr with h | h <;> linarith
    · rcases abs_eq (by norm_num : (0 : ℚ) ≤ 1 / 2) |>.mp hr with h | h <;>
        rcases abs_eq (by norm_num : (0 : ℚ) ≤ 1 / 2) |>.mp hs with h' | h' <;>
        try linarith
      have hq : q = r + 1 / 2 := by linarith
      have hsr : (s : ℚ) = r + 1 := by linarith
      rw [hq, hsr] at hs2
      rw [hq] at hr2
      rcases le_or_lt 0 ((r : ℚ) + 1 / 2) with hp | hn
      · have hr0 : (0 : ℚ) ≤ r := by
          have : (0 : Int) ≤ r := by
            by_contra hc; push_neg at hc
            have : (r : ℚ) ≤ -1 := by exact_mod_cast (by omega : r ≤ -1)
            linarith
          exact_mod_cast this
        rw [abs_of_nonneg hp, abs_of_nonneg hr0] at hr2; linarith
      · have hr0 : (r : ℚ) + 1 ≤ 0 := by
          have : r + 1 ≤ 0 := by
            by_contra hc; push_neg at hc
            have : (0 : ℚ) ≤ r := by exact_mod_cast (by omega : 0 ≤ r)
            linarith
          exact_mod_cast this
        rw [abs_of_neg hn, abs_of_nonpos hr0] at hs2; linarith
  · have h1 : (s : ℚ) + 1 ≤ r := by exact_mod_cast hgt
    rcases hr with hr | ⟨hr, hr2⟩ <;> rcases hs with hs | ⟨hs, hs2⟩
    · rw [abs_lt] at hr hs; linarith
    · rw [abs_lt] at hr
      rcases abs_eq (by norm_num : (0 : ℚ) ≤ 1 / 2) |>.mp hs with h | h <;> linarith
    · rw [abs_lt] at hs
      rcases abs_eq (by norm_num : (0 : ℚ) ≤ 1 / 2) |>.mp hr with h | h <;> linarith
    · rcases abs_eq (by norm_num : (0 : ℚ) ≤ 1 / 2) |>.mp hr with h | h <;>
        rcases abs_eq (by norm_num : (0 : ℚ) ≤ 1 / 2) |>.mp hs with h' | h' <;>
        try linarith
      have hq : q = s + 1 / 2 := by linarith
      have hsr : (r : ℚ) = s + 1 := by linarith
      rw [hq, hsr] at hr2
      rw [hq] at hs2
      rcases le_or_lt 0 ((s : ℚ) + 1 / 2) with hp | hn
      · have hr0 : (0 : ℚ) ≤ s := by
          have : (0 : Int) ≤ s := by
            by_contra hc; push_neg at hc
            have : (s : ℚ) ≤ -1 := by exact_mod_cast (by omega : s ≤ -1)
            linarith
          exact_mod_cast this
        rw [abs_of_nonneg hp, abs_of_nonneg hr0] at hs2; linarith
      · have hr0 : (s : ℚ) + 1 ≤ 0 := by
          have : s + 1 ≤ 0 := by
            by_contra hc; push_neg at hc
            have : (0 : ℚ) ≤ s := by exact_mod_cast (by omega : 0 ≤ s)
            linarith
          exact_mod_cast this
        rw [abs_of_neg hn, abs_of_nonpos hr0] at hr2; linarith

theorem isNearestHalfAway_neg {q : ℚ} {r : Int} (h : IsNearestHalfAway q r) :
    IsNearestHalfAway (-q) (-r) := by
  unfold IsNearestHalfAway at h ⊢
  have e1 : |(-q) - ((-r : Int) : ℚ)| = |q - r| := by
    rw [← abs_neg]; congr 1; push_cast; ring
  have e2 : |((-r : Int) : ℚ)| = |(r : ℚ)| := by
    push_cast; exact abs_neg _
  rw [e1, e2, abs_neg]
  exact h

theorem nearest_of_div_mod (U t r : Nat) (hU0 : 0 < U) (hrU : r < U) :
    IsNearestHalfAway (((U * t + r : Nat) : ℚ) / (U : ℚ))
      ((t + (if U ≤ 2 * r then 1 else 0) : Nat) : Int) := by
  have hU : (0 : ℚ) < (U : ℚ) := by exact_mod_cast hU0
  have hr : (r : ℚ) < (U : ℚ) := by exact_mod_cast hrU
  have hr0 : (0 : ℚ) ≤ (r : ℚ) := Nat.cast_nonneg _
  have ht0 : (0 : ℚ) ≤ (t : ℚ) := Nat.cast_nonneg _
  have hval : ((U * t + r : Nat) : ℚ) / (U : ℚ) = (t : ℚ) + (r : ℚ) / (U : ℚ) := by
    push_cast
    field_simp
    ring
  have hfrac0 : (0 : ℚ) ≤ (r : ℚ) / (U : ℚ) := div_nonneg hr0 (le_of_lt hU)
  unfold IsNearestHalfAway
  rw [hval]
  split
  · rename_i h
    have h2 : (U : ℚ) ≤ 2 * (r : ℚ) := by exact_mod_cast h
    have hfrac : (1 : ℚ) / 2 ≤ (r : ℚ) / (U : ℚ) := by
      rw [le_div_iff₀ hU]; linarith
    have hfrac1 : (r : ℚ) / (U : ℚ) < 1 := by
      rw [div_lt_one hU]; exact hr
    have hdiff : (t : ℚ) + (r : ℚ) / (U : ℚ) - (((t + 1 : Nat) : Int) : ℚ) =
        (r : ℚ) / (U : ℚ) - 1 := by
      push_cast; ring
    have hb : |((((t + 1 : Nat) : Int)) : ℚ)| = (t : ℚ) + 1 := by
      push_cast
      exact abs_of_nonneg (by linarith)
    rw [hdiff, abs_of_neg (by linarith), hb, abs_of_nonneg (by linarith)]
    rcases eq_or_lt_of_le hfrac with he | hl
    · right
      exact ⟨by linarith, by linarith⟩
    · left; linarith
  · rename_i h
    have h2 : 2 * (r : ℚ) < (U : ℚ) := by exact_mod_cast Nat.not_le.mp h
    have hfrac : (r : ℚ) / (U : ℚ) < 1 / 2 := by
      rw [div_lt_iff₀ hU]; linarith
    have hdiff : (t : ℚ) + (r : ℚ) / (U : ℚ) - (((t + 0 : Nat) : Int) : ℚ) =
        (r : ℚ) / (U : ℚ) := by
      push_cast; ring
    left
    rw [hdiff, abs_of_nonneg hfrac0]
    exact hfrac

/-- The whole number `roundedWhole k` is the nearest integer to `k` units,
a half rounded up. -/
theorem roundedWhole_isNearest (k : Nat) :
    IsNearestHalfAway ((k : ℚ) / (unitsPerOne : ℚ)) ((roundedWhole k : Nat) : Int) := by
  have h := nearest_of_div_mod unitsPerOne (k / unitsPerOne) (k % unitsPerOne)
    unitsPerOne_pos (Nat.mod_lt k unitsPerOne_pos)
  rw [Nat.div_add_mod] at h
  exact h

/-- The integer `roundedInt s k` is the integer nearest to the value of the
finite `float64` of sign `s` and magnitude `k`, a half rounded away from zero. -/
theorem roundedInt_isNearest (s : Bool) (k : Nat) :
    IsNearestHalfAway (F64.toRat (.fin s k)) (roundedInt s k) := by
  cases s
  · simpa [F64.toRat, roundedInt] using roundedWhole_isNearest k
  · have := isNearestHalfAway_neg (roundedWhole_isNearest k)
    simpa [F64.toRat, roundedInt] using this

/-- The conversion `int64(math.Round(x))` of a finite `x` whose rounded value
fits `int64`. -/
theorem int64_mathRound (impl : F64 → Int) (s : Bool) (k : Nat)
    (h : inInt64 (roundedInt s k)) :
    int64OfF64 impl (mathRound (.fin s k)) = roundedInt s k := by
  have hdiv : roundedWhole k * unitsPerOne / unitsPerOne = roundedWhole k :=
    Nat.mul_div_cancel _ unitsPerOne_pos
  unfold roundedInt at h ⊢
  simp only [mathRound, int64OfF64, hdiv]
  rw [if_pos h]

theorem timeSub_ge (t u : Time) : minInt64 ≤ timeSub t u := by
  unfold timeSub
  by_cases h1 : t - u < minInt64
  · rw [if_pos h1]
  · rw [if_neg h1]
    by_cases h2 : maxInt64 < t - u
    · rw [if_pos h2]; decide
    · rw [if_neg h2]; exact Int.not_lt.mp h1

/-- A positive `int64` divided by the seconds of a negative duration is below
zero. -/
theorem rate_negative (w : Int) (d : Duration) (hw : 0 < w) (hw2 : w ≤ maxInt64)
    (hlo : minInt64 ≤ d) (hneg : d < 0) :
    F64.negative (F64.div (f64OfInt64 w) (durationSeconds d)) = true := by
  unfold maxInt64 at hw2
  obtain ⟨k, hk, hk0, hkO⟩ := durationSeconds_neg d hlo hneg
  obtain ⟨kw, hkw, hkwa, _, _⟩ := f64OfInt64_fin w (by omega)
  have hU := unitsPerOne_large
  have hs : decide (w < 0) = false := by simp; omega
  rw [hs] at hkw
  rw [hk, hkw]
  simp only [F64.div, if_neg (Nat.ne_of_gt hk0), Bool.false_xor]
  rcases ofExact_cases true (kw * unitsPerOne) k with h | ⟨h, _⟩
  · rw [h]; rfl
  · rw [h]
    have hpos : 0 < roundUnits (kw * unitsPerOne) k := by
      apply roundUnits_pos hk0
      have h1 : 1 * unitsPerOne ≤ w.natAbs * unitsPerOne := Nat.mul_le_mul_right _ (by omega)
      exact le_trans (le_of_lt hkO) (overflowUnits_le_mul (by omega))
    simp [F64.negative, Nat.ne_of_gt hpos]

/-- A positive `int64` divided by the seconds of the zero duration is `+Inf`. -/
theorem rate_inf (w : Int) (hw : 0 < w) (hw2 : w ≤ maxInt64) :
    F64.div (f64OfInt64 w) (durationSeconds 0) = .inf false := by
  unfold maxInt64 at hw2
  obtain ⟨kw, hkw, hkwa, _, _⟩ := f64OfInt64_fin w (by omega)
  have hU := unitsPerOne_large
  have hs : decide (w < 0) = false := by simp; omega
  rw [hs] at hkw
  have h1 : 1 * unitsPerOne ≤ w.natAbs * unitsPerOne := Nat.mul_le_mul_right _ (by omega)
  have hkw0 : kw ≠ 0 := by omega
  rw [durationSeconds_zero, hkw]
  simp [F64.div, hkw0]

end Nmtool

/-! ## The rounding of `float64` results -/

namespace Nmtool

/-- The two candidates around the quotient: with `P` the spacing, `d = q * P`,
`m = p / d` and `r = p % d`, the result is `m * P` or `(m + 1) * P`, whichever
is nearer, and on a tie the one with the even multiplier. -/
theorem roundUnits_cases (p q : Nat) :
    (roundUnits p q = p / (q * 2 ^ (bitLength (p / q) - 53)) * 2 ^ (bitLength (p / q) - 53) ∧
      (2 * (p % (q * 2 ^ (bitLength (p / q) - 53))) < q * 2 ^ (bitLength (p / q) - 53) ∨
        (2 * (p % (q * 2 ^ (bitLength (p / q) - 53))) = q * 2 ^ (bitLength (p / q) - 53) ∧
          p / (q * 2 ^ (bitLength (p / q) - 53)) % 2 = 0))) ∨
    (roundUnits p q =
        (p / (q * 2 ^ (bitLength (p / q) - 53)) + 1) * 2 ^ (bitLength (p / q) - 53) ∧
      (q * 2 ^ (bitLength (p / q) - 53) < 2 * (p % (q * 2 ^ (bitLength (p / q) - 53))) ∨
        (2 * (p % (q * 2 ^ (bitLength (p / q) - 53))) = q * 2 ^ (bitLength (p / q) - 53) ∧
          p / (q * 2 ^ (bitLength (p / q) - 53)) % 2 = 1))) := by
  rw [roundUnits_eq]
  split
  · rename_i h
    right
    exact ⟨rfl, h⟩
  · rename_i h
    left
    refine ⟨rfl, ?_⟩
    omega

/-- The quotient has at most `53 + s` binary digits, `2 ^ s` being the
spacing. -/
theorem quotient_lt (n : Nat) : n < 2 ^ 53 * 2 ^ (bitLength n - 53) := by
  by_cases hn : n = 0
  · subst hn
    exact Nat.mul_pos (Nat.two_pow_pos _) (Nat.two_pow_pos _)
  · have h := (bitLength_spec hn).2
    rw [← Nat.pow_add]
    exact lt_of_lt_of_le h (Nat.pow_le_pow_right (by omega) (by omega))

/-- The lower candidate has a significand below `2^53`. -/
theorem significand_lt (p q : Nat) :
    p / (q * 2 ^ (bitLength (p / q) - 53)) < 2 ^ 53 := by
  rw [← Nat.div_div_eq_div_mul]
  exact (Nat.div_lt_iff_lt_mul (Nat.two_pow_pos _)).mpr (quotient_lt _)

/-- The rounded magnitude is representable: a significand below `2^53`
times a power of two. -/
theorem roundUnits_representable (p q : Nat) : Representable (roundUnits p q) := by
  have hm := significand_lt p q
  rcases roundUnits_cases p q with ⟨h, _⟩ | ⟨h, _⟩
  · exact ⟨_, _, hm, h⟩
  · by_cases hlt : p / (q * 2 ^ (bitLength (p / q) - 53)) + 1 < 2 ^ 53
    · exact ⟨_, _, hlt, h⟩
    · have he : p / (q * 2 ^ (bitLength (p / q) - 53)) + 1 = 2 ^ 53 := by omega
      refine ⟨2 ^ 52, bitLength (p / q) - 53 + 1, by norm_num, ?_⟩
      rw [h, he, Nat.pow_succ]
      ring

/-- No representable magnitude lies strictly between the two candidates. -/
theorem no_representable_between (p q z : Nat) (hz : Representable z) :
    z ≤ p / (q * 2 ^ (bitLength (p / q) - 53)) * 2 ^ (bitLength (p / q) - 53) ∨
    (p / (q * 2 ^ (bitLength (p / q) - 53)) + 1) * 2 ^ (bitLength (p / q) - 53) ≤ z := by
  obtain ⟨mz, e, hmz, rfl⟩ := hz
  by_cases hes : bitLength (p / q) - 53 ≤ e
  · obtain ⟨c, rfl⟩ := Nat.exists_eq_add_of_le hes
    rw [Nat.pow_add, ← Nat.mul_assoc, Nat.mul_comm mz, Nat.mul_assoc, Nat.mul_comm _ (mz * _)]
    rcases Nat.lt_or_ge (p / (q * 2 ^ (bitLength (p / q) - 53))) (mz * 2 ^ c) with h | h
    · right
      exact Nat.mul_le_mul_right _ h
    · left
      exact Nat.mul_le_mul_right _ h
  · left
    have hpos : 0 < bitLength (p / q) - 53 := by omega
    have hsp := spacing_le hpos
    have hm : 2 ^ 52 ≤ p / (q * 2 ^ (bitLength (p / q) - 53)) := by
      rw [← Nat.div_div_eq_div_mul, Nat.le_div_iff_mul_le (Nat.two_pow_pos _), ← Nat.pow_add,
        Nat.add_comm]
      exact hsp
    have h1 : mz * 2 ^ e ≤ 2 ^ 53 * 2 ^ e := Nat.mul_le_mul_right _ (le_of_lt hmz)
    have h2 : 2 ^ 53 * 2 ^ e ≤ 2 ^ 52 * 2 ^ (bitLength (p / q) - 53) := by
      rw [← Nat.pow_add, ← Nat.pow_add]
      exact Nat.pow_le_pow_right (by omega) (by omega)
    exact le_trans h1 (le_trans h2 (Nat.mul_le_mul_right _ hm))

/-- The distances of the two candidates, and of every magnitude outside
them, from the exact quotient. -/
theorem candidate_distances (p q P z : Nat) (hq : 0 < q) (hP : 0 < P) :
    distTo p q (p / (q * P) * P) = p % (q * P) ∧
    distTo p q ((p / (q * P) + 1) * P) = q * P - p % (q * P) ∧
    (z ≤ p / (q * P) * P → p % (q * P) ≤ distTo p q z) ∧
    ((p / (q * P) + 1) * P ≤ z → q * P - p % (q * P) ≤ distTo p q z) := by
  have hd : 0 < q * P := Nat.mul_pos hq hP
  have hdm := Nat.div_add_mod p (q * P)
  have hr := Nat.mod_lt p hd
  have hL : p / (q * P) * P * q = q * P * (p / (q * P)) := by ring
  have hH : (p / (q * P) + 1) * P * q = q * P * (p / (q * P)) + q * P := by ring
  unfold distTo
  refine ⟨by omega, by omega, fun hz => ?_, fun hz => ?_⟩
  · have := Nat.mul_le_mul_right q hz
    omega
  · have := Nat.mul_le_mul_right q hz
    omega

/-- The rounded magnitude is a nearest representable one: no representable
magnitude is nearer to the exact quotient `p / q`. -/
theorem roundUnits_nearest (p q z : Nat) (hq : 0 < q) (hz : Representable z) :
    distTo p q (roundUnits p q) ≤ distTo p q z := by
  obtain ⟨hL, hH, hlo, hhi⟩ :=
    candidate_distances p q (2 ^ (bitLength (p / q) - 53)) z hq (Nat.two_pow_pos _)
  have hr := Nat.mod_lt p (Nat.mul_pos hq (Nat.two_pow_pos (bitLength (p / q) - 53)))
  rcases roundUnits_cases p q with ⟨h, hc⟩ | ⟨h, hc⟩
  · rw [h, hL]
    rcases no_representable_between p q z hz with hz1 | hz2
    · exact hlo hz1
    · have := hhi hz2
      omega
  · rw [h, hH]
    rcases no_representable_between p q z hz with hz1 | hz2
    · have := hlo hz1
      omega
    · exact hhi hz2

/-- Ties go to the even significand: when another representable magnitude
`z` is as near to the exact quotient as the rounded one, the rounded magnitude
is an even multiple of their distance. -/
theorem roundUnits_ties_to_even (p q z : Nat) (hq : 0 < q) (hz : Representable z)
    (hne : z ≠ roundUnits p q)
    (htie : distTo p q z = distTo p q (roundUnits p q)) :
    2 * ((roundUnits p q - z) + (z - roundUnits p q)) ∣ roundUnits p q := by
  obtain ⟨hL, hH, hlo, hhi⟩ :=
    candidate_distances p q (2 ^ (bitLength (p / q) - 53)) z hq (Nat.two_pow_pos _)
  obtain ⟨_, _, hlo', hhi'⟩ :=
    candidate_distances p q (2 ^ (bitLength (p / q) - 53))
      (p / (q * 2 ^ (bitLength (p / q) - 53)) * 2 ^ (bitLength (p / q) - 53)) hq
      (Nat.two_pow_pos _)
  have hr := Nat.mod_lt p (Nat.mul_pos hq (Nat.two_pow_pos (bitLength (p / q) - 53)))
  have hzq : ∀ a b : Nat, distTo p q a = distTo p q b → a * q ≤ p → b * q ≤ p → a = b := by
    intro a b hab ha hb
    unfold distTo at hab
    have : a * q = b * q := by omega
    exact Nat.eq_of_mul_eq_mul_right hq this
  have hzq' : ∀ a b : Nat, distTo p q a = distTo p q b → p ≤ a * q → p ≤ b * q → a = b := by
    intro a b hab ha hb
    unfold distTo at hab
    have : a * q = b * q := by omega
    exact Nat.eq_of_mul_eq_mul_right hq this
  have hdm := Nat.div_add_mod p (q * 2 ^ (bitLength (p / q) - 53))
  have hLq : p / (q * 2 ^ (bitLength (p / q) - 53)) * 2 ^ (bitLength (p / q) - 53) * q =
      q * 2 ^ (bitLength (p / q) - 53) * (p / (q * 2 ^ (bitLength (p / q) - 53))) := by ring
  have hHq : (p / (q * 2 ^ (bitLength (p / q) - 53)) + 1) * 2 ^ (bitLength (p / q) - 53) * q =
      q * 2 ^ (bitLength (p / q) - 53) * (p / (q * 2 ^ (bitLength (p / q) - 53))) +
        q * 2 ^ (bitLength (p / q) - 53) := by ring
  have hgap : (p / (q * 2 ^ (bitLength (p / q) - 53)) + 1) * 2 ^ (bitLength (p / q) - 53) =
      p / (q * 2 ^ (bitLength (p / q) - 53)) * 2 ^ (bitLength (p / q) - 53) +
        2 ^ (bitLength (p / q) - 53) := by ring
  rcases roundUnits_cases p q with ⟨h, hc⟩ | ⟨h, hc⟩
  · rw [h] at hne htie ⊢
    rw [hL] at htie
    rcases no_representable_between p q z hz with hz1 | hz2
    · have hzle := Nat.mul_le_mul_right q hz1
      exact absurd (hzq _ _ (htie.trans hL.symm) (by omega) (by omega)) hne
    · have h2 := hhi hz2
      have hzge := Nat.mul_le_mul_right q hz2
      have hzH : z = (p / (q * 2 ^ (bitLength (p / q) - 53)) + 1) *
          2 ^ (bitLength (p / q) - 53) := by
        apply hzq' _ _ (by rw [hH]; omega) (by omega) (by omega)
      have hev : p / (q * 2 ^ (bitLength (p / q) - 53)) % 2 = 0 := by omega
      obtain ⟨c, hc2⟩ := Nat.dvd_of_mod_eq_zero hev
      have e : p / (q * 2 ^ (bitLength (p / q) - 53)) * 2 ^ (bitLength (p / q) - 53) -
            (p / (q * 2 ^ (bitLength (p / q) - 53)) + 1) * 2 ^ (bitLength (p / q) - 53) +
          ((p / (q * 2 ^ (bitLength (p / q) - 53)) + 1) * 2 ^ (bitLength (p / q) - 53) -
            p / (q * 2 ^ (bitLength (p / q) - 53)) * 2 ^ (bitLength (p / q) - 53)) =
          2 ^ (bitLength (p / q) - 53) := by
        rw [hgap]
        generalize p / (q * 2 ^ (bitLength (p / q) - 53)) * 2 ^ (bitLength (p / q) - 53) = x
        generalize 2 ^ (bitLength (p / q) - 53) = y
        omega
      rw [hzH, e]
      exact ⟨c, by rw [hc2]; ring⟩
  · rw [h] at hne htie ⊢
    rw [hH] at htie
    rcases no_representable_between p q z hz with hz1 | hz2
    · have h2 := hlo hz1
      have hzle := Nat.mul_le_mul_right q hz1
      have hzL : z = p / (q * 2 ^ (bitLength (p / q) - 53)) *
          2 ^ (bitLength (p / q) - 53) := by
        apply hzq _ _ (by rw [hL]; omega) (by omega) (by omega)
      have hod : p / (q * 2 ^ (bitLength (p / q) - 53)) % 2 = 1 := by omega
      have hev : (p / (q * 2 ^ (bitLength (p / q) - 53)) + 1) % 2 = 0 := by omega
      obtain ⟨c, hc2⟩ := Nat.dvd_of_mod_eq_zero hev
      have e : (p / (q * 2 ^ (bitLength (p / q) - 53)) + 1) * 2 ^ (bitLength (p / q) - 53) -
            p / (q * 2 ^ (bitLength (p / q) - 53)) * 2 ^ (bitLength (p / q) - 53) +
          (p / (q * 2 ^ (bitLength (p / q) - 53)) * 2 ^ (bitLength (p / q) - 53) -
            (p / (q * 2 ^ (bitLength (p / q) - 53)) + 1) * 2 ^ (bitLength (p / q) - 53)) =
          2 ^ (bitLength (p / q) - 53) := by
        rw [hgap]
        generalize p / (q * 2 ^ (bitLength (p / q) - 53)) * 2 ^ (bitLength (p / q) - 53) = x
        generalize 2 ^ (bitLength (p / q) - 53) = y
        omega
      rw [hzL, e]
      exact ⟨c, by rw [hc2]; ring⟩
    · have hzge := Nat.mul_le_mul_right q hz2
      exact absurd (hzq' _ _ (htie.trans hH.symm) (by omega) (by omega)) hne

/-- The rounded magnitude is the `float64` rounding of the exact quotient. -/
theorem roundUnits_isRounding (p q : Nat) (hq : 0 < q) : IsRounding p q (roundUnits p q) :=
  ⟨roundUnits_representable p q, fun z hz => roundUnits_nearest p q z hq hz,
    fun z hz hne htie => roundUnits_ties_to_even p q z hq hz hne htie⟩

theorem ofExact_eq_fin {s u : Bool} {p q k : Nat} (h : F64.ofExact s p q = .fin u k) :
    u = s ∧ k = roundUnits p q := by
  unfold F64.ofExact at h
  split at h
  · exact absurd h (by simp)
  · injection h with h1 h2
    exact ⟨h1.symm, h2.symm⟩

/-- A finite `float64` quotient is the rounding of the exact quotient. -/
theorem div_isRounding {s t u : Bool} {a b k : Nat} (hb : b ≠ 0)
    (h : F64.div (.fin s a) (.fin t b) = .fin u k) :
    IsRounding (a * unitsPerOne) b k := by
  simp only [F64.div, if_neg hb] at h
  rw [(ofExact_eq_fin h).2]
  exact roundUnits_isRounding _ _ (Nat.pos_of_ne_zero hb)

/-- A finite `float64` product is the rounding of the exact product. -/
theorem mul_isRounding {s t u : Bool} {a b k : Nat}
    (h : F64.mul (.fin s a) (.fin t b) = .fin u k) :
    IsRounding (a * b) unitsPerOne k := by
  simp only [F64.mul] at h
  rw [(ofExact_eq_fin h).2]
  exact roundUnits_isRounding _ _ unitsPerOne_pos

/-- Example: `15 / 2` rounds to 8, and 7 is no nearer. -/
theorem roundUnits_nearest_witness : distTo 15 2 (roundUnits 15 2) ≤ distTo 15 2 7 :=
  roundUnits_nearest 15 2 7 (by decide) ⟨7, 0, by decide, by decide⟩

/-- Example: `15 / 2` lies midway between 7 and 8 and rounds to 8, an even
multiple of the distance 1. -/
theorem roundUnits_ties_to_even_witness :
    2 * ((roundUnits 15 2 - 7) + (7 - roundUnits 15 2)) ∣ roundUnits 15 2 :=
  roundUnits_ties_to_even 15 2 7 (by decide) ⟨7, 0, by decide, by decide⟩
    (by decide!) (by decide!)

end Nmtool

/-! ## Facts about the window loop -/

namespace Nmtool

namespace Estimate

theorem windowLoop_nil (env : Env) (k : Client) (cur : Block) (su : F64) (log : List Event) :
    windowLoop env k cur su [] log = ⟨log, none⟩ := rfl

theorem windowLoop_cons_error (env : Env) (k : Client) (cur : Block) (su : F64)
    (w : Int) (rest : List Int) (log : List Event) (e : String)
    (hb : k.Block (subInt64 cur.Header.Height w) numRetries = .error e) :
    windowLoop env k cur su (w :: rest) log =
      ⟨log ++ [.block (subInt64 cur.Header.Height w) numRetries],
        some (.fetchBlock (subInt64 cur.Header.Height w) e)⟩ := by
  simp only [windowLoop, hb]

theorem windowLoop_cons_ok (env : Env) (k : Client) (cur : Block) (su : F64)
    (w : Int) (rest : List Int) (log : List Event) (b : Block)
    (hb : k.Block (subInt64 cur.Header.Height w) numRetries = .ok b) :
    windowLoop env k cur su (w :: rest) log =
      windowLoop env k cur su rest
        (log ++ [.block (subInt64 cur.Header.Height w) numRetries,
                 windowLine env cur b su w]) := by
  simp only [windowLoop, hb]

theorem fetchFails_of_error {k : Client} {cur : Block} {w : Int} {e : String}
    (hb : k.Block (subInt64 cur.Header.Height w) numRetries = .error e) :
    fetchFails k cur w = true := by
  simp [fetchFails, hb]

theorem fetchFails_of_ok {k : Client} {cur : Block} {w : Int} {b : Block}
    (hb : k.Block (subInt64 cur.Header.Height w) numRetries = .ok b) :
    fetchFails k cur w = false := by
  simp [fetchFails, hb]

theorem windowLoop_log_prefix (env : Env) (k : Client) (cur : Block) (su : F64)
    (ws : List Int) (log : List Event) :
    ∃ tail, (windowLoop env k cur su ws log).log = log ++ tail := by
  induction ws generalizing log with
  | nil => exact ⟨[], by simp [windowLoop]⟩
  | cons w rest ih =>
    cases hb : k.Block (subInt64 cur.Header.Height w) numRetries with
    | error e =>
      rw [windowLoop_cons_error env k cur su w rest log e hb]
      exact ⟨_, rfl⟩
    | ok b =>
      rw [windowLoop_cons_ok env k cur su w rest log b hb]
      obtain ⟨tail, ht⟩ := ih (log ++ [.block (subInt64 cur.Header.Height w) numRetries,
        windowLine env cur b su w])
      exact ⟨_, by rw [ht, List.append_assoc]⟩

theorem windowLoop_reported (env : Env) (k : Client) (cur : Block) (su : F64)
    (ws : List Int) (log : List Event) :
    reportedWindows (windowLoop env k cur su ws log).log =
      reportedWindows log ++ ws.takeWhile (fun w => !fetchFails k cur w) := by
  induction ws generalizing log with
  | nil => simp [windowLoop]
  | cons w rest ih =>
    cases hb : k.Block (subInt64 cur.Header.Height w) numRetries with
    | error e =>
      rw [windowLoop_cons_error env k cur su w rest log e hb]
      simp [reportedWindows, fetchFails_of_error hb, List.filterMap_append]
    | ok b =>
      rw [windowLoop_cons_ok env k cur su w rest log b hb, ih]
      simp [reportedWindows, fetchFails_of_ok hb, List.filterMap_append, windowLine]

theorem windowLoop_fetched (env : Env) (k : Client) (cur : Block) (su : F64)
    (ws : List Int) (log : List Event) :
    fetchedHeights (windowLoop env k cur su ws log).log =
      fetchedHeights log ++ (attempted k cur ws).map (subInt64 cur.Header.Height) := by
  induction ws generalizing log with
  | nil => simp [windowLoop, attempted]
  | cons w rest ih =>
    cases hb : k.Block (subInt64 cur.Header.Height w) numRetries with
    | error e =>
      rw [windowLoop_cons_error env k cur su w rest log e hb]
      simp [fetchedHeights, fetchFails_of_error hb, List.filterMap_append, attempted]
    | ok b =>
      rw [windowLoop_cons_ok env k cur su w rest log b hb, ih]
      simp [fetchedHeights, fetchFails_of_ok hb, List.filterMap_append, windowLine, attempted]

theorem windowLoop_err_none_iff (env : Env) (k : Client) (cur : Block) (su : F64)
    (ws : List Int) (log : List Event) :
    (windowLoop env k cur su ws log).err = none ↔ ∀ w ∈ ws, fetchFails k cur w = false := by
  induction ws generalizing log with
  | nil => simp [windowLoop]
  | cons w rest ih =>
    cases hb : k.Block (subInt64 cur.Header.Height w) numRetries with
    | error e =>
      rw [windowLoop_cons_error env k cur su w rest log e hb]
      simp [fetchFails_of_error hb]
    | ok b =>
      rw [windowLoop_cons_ok env k cur su w rest log b hb, ih]
      simp [fetchFails_of_ok hb]

theorem windowLoop_err_some (env : Env) (k : Client) (cur : Block) (su : F64)
    (ws : List Int) (log : List Event) (w : Int)
    (hw : ws.find? (fetchFails k cur) = some w) :
    ∃ cause, k.Block (subInt64 cur.Header.Height w) numRetries = .error cause ∧
      (windowLoop env k cur su ws log).err =
        some (.fetchBlock (subInt64 cur.Header.Height w) cause) := by
  induction ws generalizing log with
  | nil => simp at hw
  | cons v rest ih =>
    cases hb : k.Block (subInt64 cur.Header.Height v) numRetries with
    | error e =>
      rw [windowLoop_cons_error env k cur su v rest log e hb]
      simp [List.find?, fetchFails_of_error hb] at hw
      subst hw
      exact ⟨e, hb, rfl⟩
    | ok b =>
      rw [windowLoop_cons_ok env k cur su v rest log b hb]
      simp [List.find?, fetchFails_of_ok hb] at hw
      exact ih _ hw

theorem windowLoop_err_shape (env : Env) (k : Client) (cur : Block) (su : F64)
    (ws : List Int) (log : List Event) :
    (windowLoop env k cur su ws log).err = none ∨
      ∃ h c, (windowLoop env k cur su ws log).err = some (.fetchBlock h c) := by
  induction ws generalizing log with
  | nil => left; simp [windowLoop]
  | cons v rest ih =>
    cases hb : k.Block (subInt64 cur.Header.Height v) numRetries with
    | error e =>
      rw [windowLoop_cons_error env k cur su v rest log e hb]
      right; exact ⟨_, _, rfl⟩
    | ok b =>
      rw [windowLoop_cons_ok env k cur su v rest log b hb]
      exact ih _

/-- The run of the command once the client was built, the time parsed and
found not to lie before `now`, and the tip fetched. -/
theorem runE_after_tip (env : Env) (arg : String) (k : Client) (T : Time) (cur : Block)
    (hk : env.NewClient env.nemoGrpcUrl = .ok k) (hT : env.timeParse arg = .ok T)
    (hnow : ¬ T < env.now) (hcur : k.LatestBlock numRetries = .ok cur) :
    EstimateBlockHeightCmd env [arg] =
      windowLoop env k cur (durationSeconds (timeSub T env.now)) blockAverages
        ([Event.printEndpoint env.nemoGrpcUrl, .newClient env.nemoGrpcUrl] ++
          [.printEstimating T
            (int64OfF64 env.implInt64 (mathRound (durationSeconds (timeSub T env.now)))),
           .latestBlock numRetries]) := by
  simp [EstimateBlockHeightCmd, runE, hk, hT, timeBefore, hnow, hcur]

theorem windowLoop_line_mem (env : Env) (k : Client) (cur : Block) (su : F64)
    (ws : List Int) (log : List Event)
    (hall : ∀ w ∈ ws, fetchFails k cur w = false) (w : Int) (hw : w ∈ ws) (b : Block)
    (hb : k.Block (subInt64 cur.Header.Height w) numRetries = .ok b) :
    windowLine env cur b su w ∈ (windowLoop env k cur su ws log).log := by
  induction ws generalizing log with
  | nil => simp at hw
  | cons v rest ih =>
    cases hv : k.Block (subInt64 cur.Header.Height v) numRetries with
    | error e =>
      have := hall v (by simp)
      rw [fetchFails_of_error hv] at this
      exact absurd this (by simp)
    | ok bv =>
      rw [windowLoop_cons_ok env k cur su v rest log bv hv]
      rcases List.mem_cons.mp hw with rfl | hrest
      · have hbb : bv = b := by
          rw [hv] at hb
          exact Except.ok.inj hb
        subst hbb
        obtain ⟨tail, ht⟩ := windowLoop_log_prefix env k cur su rest
          (log ++ [.block (subInt64 cur.Header.Height w) numRetries, windowLine env cur bv su w])
        rw [ht]
        simp
      · exact ih _ (fun x hx => hall x (List.mem_cons_of_mem _ hx)) hrest

theorem attempted_mem_of_fetched (env : Env) (k : Client) (cur : Block) (su : F64)
    (ws : List Int) (log : List Event) (w : Int) (hw : w ∈ attempted k cur ws) :
    Event.block (subInt64 cur.Header.Height w) numRetries ∈
      (windowLoop env k cur su ws log).log := by
  induction ws generalizing log with
  | nil => simp [attempted] at hw
  | cons v rest ih =>
    cases hv : k.Block (subInt64 cur.Header.Height v) numRetries with
    | error e =>
      rw [windowLoop_cons_error env k cur su v rest log e hv]
      simp [attempted, fetchFails_of_error hv] at hw
      subst hw
      simp
    | ok bv =>
      rw [windowLoop_cons_ok env k cur su v rest log bv hv]
      simp only [attempted, fetchFails_of_ok hv] at hw
      rcases List.mem_cons.mp hw with rfl | hrest
      · obtain ⟨tail, ht⟩ := windowLoop_log_prefix env k cur su rest
          (log ++ [.block (subInt64 cur.Header.Height w) numRetries, windowLine env cur bv su w])
        rw [ht]
        simp
      · exact ih _ (by simpa using hrest)

theorem attempted_fails_err (env : Env) (k : Client) (cur : Block) (su : F64)
    (ws : List Int) (log : List Event) (w : Int) (hw : w ∈ attempted k cur ws)
    (hf : fetchFails k cur w = true) :
    ∃ cause, k.Block (subInt64 cur.Header.Height w) numRetries = .error cause ∧
      (windowLoop env k cur su ws log).err =
        some (.fetchBlock (subInt64 cur.Header.Height w) cause) := by
  induction ws generalizing log with
  | nil => simp [attempted] at hw
  | cons v rest ih =>
    cases hv : k.Block (subInt64 cur.Header.Height v) numRetries with
    | error e =>
      rw [windowLoop_cons_error env k cur su v rest log e hv]
      simp [attempted, fetchFails_of_error hv] at hw
      subst hw
      exact ⟨e, hv, rfl⟩
    | ok bv =>
      rw [windowLoop_cons_ok env k cur su v rest log bv hv]
      simp only [attempted, fetchFails_of_ok hv] at hw
      rcases List.mem_cons.mp hw with rfl | hrest
      · rw [fetchFails_of_ok hv] at hf
        exact absurd hf (by simp)
      · exact ih _ (by simpa using hrest)

theorem windowLoop_line_mem_attempted (env : Env) (k : Client) (cur : Block) (su : F64)
    (ws : List Int) (log : List Event) (w : Int) (hw : w ∈ attempted k cur ws) (b : Block)
    (hb : k.Block (subInt64 cur.Header.Height w) numRetries = .ok b) :
    windowLine env cur b su w ∈ (windowLoop env k cur su ws log).log := by
  induction ws generalizing log with
  | nil => simp [attempted] at hw
  | cons v rest ih =>
    cases hv : k.Block (subInt64 cur.Header.Height v) numRetries with
    | error e =>
      simp [attempted, fetchFails_of_error hv] at hw
      subst hw
      rw [hv] at hb
      exact absurd hb (by simp)
    | ok bv =>
      rw [windowLoop_cons_ok env k cur su v rest log bv hv]
      simp only [attempted, fetchFails_of_ok hv] at hw
      rcases List.mem_cons.mp hw with rfl | hrest
      · have hbb : bv = b := by
          rw [hv] at hb
          exact Except.ok.inj hb
        subst hbb
        obtain ⟨tail, ht⟩ := windowLoop_log_prefix env k cur su rest
          (log ++ [.block (subInt64 cur.Header.Height w) numRetries, windowLine env cur bv su w])
        rw [ht]
        simp
      · exact ih _ (by simpa using hrest)

end Estimate

end Nmtool

/-! ## The height estimator: target time (C1) -/

namespace Nmtool.Estimate

/-- C1, counterexample: a target instant equal to `now` is not strictly after
`now`, yet the command does not fail with the invalid-target-time error: it
goes on to the tip fetch and, on the steady chain, ends without error. -/
theorem target_equal_to_now_not_rejected :
    ¬ (envTargetIsNow.now < 50000000000000) ∧
    envTargetIsNow.timeParse "2050-05-22T15:00" = .ok 50000000000000 ∧
    (EstimateBlockHeightCmd envTargetIsNow ["2050-05-22T15:00"]).err = none ∧
    Event.latestBlock numRetries ∈
      (EstimateBlockHeightCmd envTargetIsNow ["2050-05-22T15:00"]).log := by
  refine ⟨by decide, by rfl, by decide, by decide⟩

/-- C1, amended: with the client built and the argument parsed to the instant
`T`, the command fails with the invalid-target-time error exactly when `T` is
strictly before `now`; a `T` equal to or after `now` is accepted, and the tip
fetch is issued exactly in that case. -/
theorem target_time_rejected_iff_before (env : Env) (arg : String) (k : Client) (T : Time)
    (hk : env.NewClient env.nemoGrpcUrl = .ok k) (hT : env.timeParse arg = .ok T) :
    ((∃ d, (EstimateBlockHeightCmd env [arg]).err = some (.alreadyHappened d)) ↔ T < env.now) ∧
    (Event.latestBlock numRetries ∈ (EstimateBlockHeightCmd env [arg]).log ↔ ¬ T < env.now) := by
  by_cases h : T < env.now
  · simp [EstimateBlockHeightCmd, runE, hk, hT, timeBefore, h]
  · cases hcur : k.LatestBlock numRetries with
    | error e => simp [EstimateBlockHeightCmd, runE, hk, hT, timeBefore, h, hcur]
    | ok cur =>
      rw [runE_after_tip env arg k T cur hk hT h hcur]
      refine ⟨⟨fun ⟨d, hd⟩ => ?_, fun hlt => absurd hlt h⟩, ⟨fun _ => h, fun _ => ?_⟩⟩
      · rcases windowLoop_err_shape env k cur (durationSeconds (timeSub T env.now))
          blockAverages _ with hn | ⟨x, c, hx⟩
        · rw [hn] at hd; exact absurd hd (by simp)
        · rw [hx] at hd; exact absurd hd (by simp)
      · obtain ⟨tail, ht⟩ := windowLoop_log_prefix env k cur
          (durationSeconds (timeSub T env.now)) blockAverages
          ([Event.printEndpoint env.nemoGrpcUrl, .newClient env.nemoGrpcUrl] ++
            [.printEstimating T
              (int64OfF64 env.implInt64 (mathRound (durationSeconds (timeSub T env.now)))),
             .latestBlock numRetries])
        rw [ht]
        simp

/-- C1, witness: on the steady chain a target 50,000 seconds ahead. -/
theorem target_time_rejected_iff_before_witness :
    ((∃ d, (EstimateBlockHeightCmd envSteady ["2050-05-22T15:00"]).err =
        some (.alreadyHappened d)) ↔ (50000000000000 : Int) < envSteady.now) ∧
    (Event.latestBlock numRetries ∈ (EstimateBlockHeightCmd envSteady ["2050-05-22T15:00"]).log ↔
      ¬ (50000000000000 : Int) < envSteady.now) :=
  target_time_rejected_iff_before envSteady "2050-05-22T15:00" steadyClient 50000000000000
    rfl rfl

/-! ## The height estimator: a failing window (C2) -/

/-- C2, counterexample: the tip fetch succeeds and only the second window's
fetch (block 950,000) fails; the command returns an error, reports the first
window only, not one entry per window, and fetches nothing for the third and
fourth windows. -/
theorem failing_window_aborts_the_run :
    secondWindowFailsClient.LatestBlock numRetries = .ok tipMillion ∧
    (EstimateBlockHeightCmd envSecondWindowFails ["2050-05-22T15:00"]).err =
      some (.fetchBlock 950000 "rpc error") ∧
    reportedWindows (EstimateBlockHeightCmd envSecondWindowFails ["2050-05-22T15:00"]).log =
      [10000] ∧
    fetchedHeights (EstimateBlockHeightCmd envSecondWindowFails ["2050-05-22T15:00"]).log =
      [990000, 950000] := by
  refine ⟨rfl, by decide, by decide, by decide⟩

/-- C2, amended: once the tip fetch has succeeded the windows are handled in
the order `[10000, 50000, 75000, 100000]`; the result entries are those of the
windows before the first one whose historical-block fetch fails; the block
fetches issued are those of the windows up to and including that one, so the
later windows are not attempted; the command returns no error exactly when no
fetch fails, and otherwise returns the fetch-block error of the first failing
window. -/
theorem windows_reported_until_first_failure (env : Env) (arg : String) (k : Client)
    (T : Time) (cur : Block)
    (hk : env.NewClient env.nemoGrpcUrl = .ok k) (hT : env.timeParse arg = .ok T)
    (hnow : ¬ T < env.now) (hcur : k.LatestBlock numRetries = .ok cur) :
    reportedWindows (EstimateBlockHeightCmd env [arg]).log =
      [10000, 50000, 75000, 100000].takeWhile (fun w => !fetchFails k cur w) ∧
    fetchedHeights (EstimateBlockHeightCmd env [arg]).log =
      (attempted k cur [10000, 50000, 75000, 100000]).map (subInt64 cur.Header.Height) ∧
    ((EstimateBlockHeightCmd env [arg]).err = none ↔
      ∀ w ∈ [10000, 50000, 75000, 100000], fetchFails k cur w = false) ∧
    (∀ w, [10000, 50000, 75000, 100000].find? (fetchFails k cur) = some w →
      ∃ cause, k.Block (subInt64 cur.Header.Height w) numRetries = .error cause ∧
        (EstimateBlockHeightCmd env [arg]).err =
          some (.fetchBlock (subInt64 cur.Header.Height w) cause)) := by
  rw [runE_after_tip env arg k T cur hk hT hnow hcur]
  refine ⟨?_, ?_, ?_, ?_⟩
  · rw [windowLoop_reported]
    simp [reportedWindows, blockAverages]
  · rw [windowLoop_fetched]
    simp [fetchedHeights, blockAverages]
  · exact windowLoop_err_none_iff env k cur _ blockAverages _
  · intro w hw
    exact windowLoop_err_some env k cur _ blockAverages _ w hw

/-- C2, witness: the run in which the second window's fetch fails. -/
theorem windows_reported_until_first_failure_witness :
    reportedWindows (EstimateBlockHeightCmd envSecondWindowFails ["2050-05-22T15:00"]).log =
      [10000, 50000, 75000, 100000].takeWhile
        (fun w => !fetchFails secondWindowFailsClient tipMillion w) ∧
    fetchedHeights (EstimateBlockHeightCmd envSecondWindowFails ["2050-05-22T15:00"]).log =
      (attempted secondWindowFailsClient tipMillion [10000, 50000, 75000, 100000]).map
        (subInt64 tipMillion.Header.Height) ∧
    ((EstimateBlockHeightCmd envSecondWindowFails ["2050-05-22T15:00"]).err = none ↔
      ∀ w ∈ [10000, 50000, 75000, 100000],
        fetchFails secondWindowFailsClient tipMillion w = false) ∧
    (∀ w, [10000, 50000, 75000, 100000].find? (fetchFails secondWindowFailsClient tipMillion)
        = some w →
      ∃ cause, secondWindowFailsClient.Block (subInt64 tipMillion.Header.Height w) numRetries =
          .error cause ∧
        (EstimateBlockHeightCmd envSecondWindowFails ["2050-05-22T15:00"]).err =
          some (.fetchBlock (subInt64 tipMillion.Header.Height w) cause)) :=
  windows_reported_until_first_failure envSecondWindowFails "2050-05-22T15:00"
    secondWindowFailsClient 50000000000000 tipMillion rfl rfl (by decide) rfl

/-! ## The height estimator: negative historical height (C7) -/

/-- C7, counterexample: with the tip at height 5,000 the first window's
historical height is `5000 - 10000 < 0`; the block fetch for height `-5000` is
issued all the same, and its failure ends the command with the fetch-block
error. -/
theorem fetch_issued_for_negative_height :
    youngClient.LatestBlock numRetries = .ok ⟨⟨5000, 0⟩⟩ ∧
    (5000 : Int) - 10000 < 0 ∧
    Event.block (-5000) numRetries ∈
      (EstimateBlockHeightCmd envYoung ["2050-05-22T15:00"]).log ∧
    fetchedHeights (EstimateBlockHeightCmd envYoung ["2050-05-22T15:00"]).log = [-5000] ∧
    (EstimateBlockHeightCmd envYoung ["2050-05-22T15:00"]).err =
      some (.fetchBlock (-5000) "height must be positive") := by
  refine ⟨rfl, by decide, by decide, by decide, by decide⟩

/-- C7, amended: the estimator has no insufficient-history check. For every
window `w` the loop gets to and every tip height `h` with `h - w < 0` (and
`h - w` an `int64`), the block fetch for the negative height `h - w` is issued
with the five retries; if that fetch fails, the command returns the
fetch-block error for that height. -/
theorem negative_height_is_fetched (env : Env) (arg : String) (k : Client)
    (T : Time) (cur : Block) (w : Int)
    (hk : env.NewClient env.nemoGrpcUrl = .ok k) (hT : env.timeParse arg = .ok T)
    (hnow : ¬ T < env.now) (hcur : k.LatestBlock numRetries = .ok cur)
    (hw : w ∈ attempted k cur [10000, 50000, 75000, 100000])
    (hneg : cur.Header.Height - w < 0) (hrep : minInt64 ≤ cur.Header.Height - w) :
    Event.block (cur.Header.Height - w) 5 ∈ (EstimateBlockHeightCmd env [arg]).log ∧
    (∀ cause, k.Block (cur.Header.Height - w) 5 = .error cause →
      (EstimateBlockHeightCmd env [arg]).err =
        some (.fetchBlock (cur.Header.Height - w) cause)) := by
  have hsub : subInt64 cur.Header.Height w = cur.Header.Height - w := by
    apply wrapInt64_of_inInt64
    unfold inInt64 maxInt64
    exact ⟨hrep, by omega⟩
  rw [runE_after_tip env arg k T cur hk hT hnow hcur]
  refine ⟨?_, ?_⟩
  · have := attempted_mem_of_fetched env k cur (durationSeconds (timeSub T env.now))
      blockAverages
      ([Event.printEndpoint env.nemoGrpcUrl, .newClient env.nemoGrpcUrl] ++
          [.printEstimating T
            (int64OfF64 env.implInt64 (mathRound (durationSeconds (timeSub T env.now)))),
           .latestBlock numRetries]) w hw
    rw [hsub] at this
    exact this
  · intro cause hc
    have hf : fetchFails k cur w = true := by
      apply fetchFails_of_error (e := cause)
      rw [hsub]; exact hc
    obtain ⟨c, hc1, hc2⟩ := attempted_fails_err env k cur
      (durationSeconds (timeSub T env.now)) blockAverages
      ([Event.printEndpoint env.nemoGrpcUrl, .newClient env.nemoGrpcUrl] ++
          [.printEstimating T
            (int64OfF64 env.implInt64 (mathRound (durationSeconds (timeSub T env.now)))),
           .latestBlock numRetries]) w hw hf
    rw [hsub] at hc1 hc2
    have hcc : c = cause := by
      have h5 : numRetries = 5 := rfl
      rw [h5, hc] at hc1
      exact (Except.error.inj hc1).symm
    rw [hc2, hcc]

/-- C7, witness: the young chain, first window. -/
theorem negative_height_is_fetched_witness :
    Event.block ((5000 : Int) - 10000) 5 ∈
      (EstimateBlockHeightCmd envYoung ["2050-05-22T15:00"]).log ∧
    (∀ cause, youngClient.Block ((5000 : Int) - 10000) 5 = .error cause →
      (EstimateBlockHeightCmd envYoung ["2050-05-22T15:00"]).err =
        some (.fetchBlock ((5000 : Int) - 10000) cause)) :=
  negative_height_is_fetched envYoung "2050-05-22T15:00" youngClient 50000000000000
    ⟨⟨5000, 0⟩⟩ 10000 rfl rfl (by decide) rfl (by simp [attempted]) (by decide) (by decide)

/-! ## The height estimator: the sampled duration (C8) -/

/-- C8, counterexample: every historical block is stamped 10,000 seconds
after the tip, so each sampled duration is negative; no window fails, the
command ends without error, and the first window's printed line comes from
the division `10000 / -10000`: a rate of -1 block per second, -50,000 blocks
to the target, height 950,000. -/
theorem negative_duration_is_divided_by :
    timeSub tipMillion.Header.Time 10000000000000 < 0 ∧
    (EstimateBlockHeightCmd envInvertedClock ["2050-05-22T15:00"]).err = none ∧
    reportedWindows (EstimateBlockHeightCmd envInvertedClock ["2050-05-22T15:00"]).log =
      [10000, 50000, 75000, 100000] ∧
    blocksPerSec 10000 (secondsPassed tipMillion ⟨⟨990000, 10000000000000⟩⟩) =
      .fin true unitsPerOne ∧
    Event.printWindow 10000 950000 (-50000) (.fin true unitsPerOne)
        (F64.div (.fin true (10000 * unitsPerOne)) (F64.ofNat 3600)) ∈
      (EstimateBlockHeightCmd envInvertedClock ["2050-05-22T15:00"]).log := by
  refine ⟨by decide, by decide, by decide, by decide!, by decide!⟩

/-- C8, amended: the estimator does not check the sampled duration. For every
window the loop gets to and whose block fetch succeeds, the line printed is
computed from the quotient `float64(w) / secondsPassed` whatever the divisor;
for an `int64` window `w > 0` that quotient is below zero when the sampled
duration is negative and `+Inf` when it is zero. The only error of the loop is
a failing fetch: when every window's fetch succeeds, the command returns no
error and reports every window, whatever the timestamps. -/
theorem sampled_duration_is_not_checked (env : Env) (arg : String) (k : Client)
    (T : Time) (cur : Block)
    (hk : env.NewClient env.nemoGrpcUrl = .ok k) (hT : env.timeParse arg = .ok T)
    (hnow : ¬ T < env.now) (hcur : k.LatestBlock numRetries = .ok cur) :
    (∀ w ∈ attempted k cur [10000, 50000, 75000, 100000], ∀ b,
      k.Block (subInt64 cur.Header.Height w) numRetries = .ok b →
      Event.printWindow w
          (addInt64 cur.Header.Height
            (int64OfF64 env.implInt64 (mathRound (F64.mul
              (F64.div (f64OfInt64 w)
                (durationSeconds (timeSub cur.Header.Time b.Header.Time)))
              (durationSeconds (timeSub T env.now))))))
          (int64OfF64 env.implInt64 (mathRound (F64.mul
            (F64.div (f64OfInt64 w)
              (durationSeconds (timeSub cur.Header.Time b.Header.Time)))
            (durationSeconds (timeSub T env.now)))))
          (F64.div (durationSeconds (timeSub cur.Header.Time b.Header.Time)) (f64OfInt64 w))
          (F64.div (durationSeconds (timeSub cur.Header.Time b.Header.Time)) (F64.ofNat 3600)) ∈
        (EstimateBlockHeightCmd env [arg]).log) ∧
    (∀ (w : Int) (b : Block), 0 < w → w ≤ maxInt64 →
      (timeSub cur.Header.Time b.Header.Time < 0 →
        F64.negative (F64.div (f64OfInt64 w)
          (durationSeconds (timeSub cur.Header.Time b.Header.Time))) = true) ∧
      (timeSub cur.Header.Time b.Header.Time = 0 →
        F64.div (f64OfInt64 w)
          (durationSeconds (timeSub cur.Header.Time b.Header.Time)) = .inf false)) ∧
    ((EstimateBlockHeightCmd env [arg]).err = none ∨
      ∃ h cause, (EstimateBlockHeightCmd env [arg]).err = some (.fetchBlock h cause)) ∧
    ((∀ w ∈ [10000, 50000, 75000, 100000], fetchFails k cur w = false) →
      (EstimateBlockHeightCmd env [arg]).err = none ∧
      reportedWindows (EstimateBlockHeightCmd env [arg]).log =
        [10000, 50000, 75000, 100000]) := by
  rw [runE_after_tip env arg k T cur hk hT hnow hcur]
  refine ⟨?_, ?_, ?_, ?_⟩
  · intro w hw b hb
    exact windowLoop_line_mem_attempted env k cur _ blockAverages _ w hw b hb
  · intro w b hw hw2
    refine ⟨fun hd => rate_negative w _ hw hw2 (timeSub_ge _ _) hd, fun hd => ?_⟩
    rw [hd]
    exact rate_inf w hw hw2
  · exact windowLoop_err_shape env k cur _ blockAverages _
  · intro hall
    refine ⟨(windowLoop_err_none_iff env k cur _ blockAverages _).mpr hall, ?_⟩
    rw [windowLoop_reported]
    have htw : List.takeWhile (fun w => !fetchFails k cur w) blockAverages = blockAverages := by
      rw [List.takeWhile_eq_self_iff]
      intro w hw
      simp [hall w hw]
    rw [htw]
    simp [reportedWindows, blockAverages]

/-- C8, witness: the historical blocks are stamped after the tip, and the
second window's fetch fails: the first window still prints its line. -/
theorem sampled_duration_is_not_checked_witness :
    Event.printWindow 10000 950000 (-50000) (.fin true unitsPerOne)
        (F64.div (.fin true (10000 * unitsPerOne)) (F64.ofNat 3600)) ∈
      (EstimateBlockHeightCmd envInvertedSecondFails ["2050-05-22T15:00"]).log ∧
    (EstimateBlockHeightCmd envInvertedSecondFails ["2050-05-22T15:00"]).err =
      some (.fetchBlock 950000 "rpc error") := by
  have h := sampled_duration_is_not_checked envInvertedSecondFails "2050-05-22T15:00"
    invertedSecondFailsClient 50000000000000 tipMillion rfl rfl (by decide) rfl
  have hline := h.1 10000 (by simp [attempted]) ⟨⟨990000, 10000000000000⟩⟩ rfl
  have e1 : int64OfF64 envInvertedSecondFails.implInt64 (mathRound (F64.mul
      (F64.div (f64OfInt64 10000)
        (durationSeconds (timeSub tipMillion.Header.Time
          (⟨⟨990000, 10000000000000⟩⟩ : Block).Header.Time)))
      (durationSeconds (timeSub 50000000000000 envInvertedSecondFails.now)))) = -50000 := by
    decide!
  have e2 : F64.div (durationSeconds (timeSub tipMillion.Header.Time
      (⟨⟨990000, 10000000000000⟩⟩ : Block).Header.Time)) (f64OfInt64 10000) =
      .fin true unitsPerOne := by decide!
  have e3 : durationSeconds (timeSub tipMillion.Header.Time
      (⟨⟨990000, 10000000000000⟩⟩ : Block).Header.Time) =
      .fin true (10000 * unitsPerOne) := by decide!
  have e4 : addInt64 tipMillion.Header.Height (-50000) = 950000 := by decide
  rw [e1, e2, e3, e4] at hline
  exact ⟨hline, by decide⟩

/-! ## The height estimator: the projection (C3) -/

/-- C3, counterexample: tip at height 1,000,000, window 10,000 sampled over
exactly 156,000 seconds, target exactly 117 seconds ahead. Over the rationals
`(10000 / 156000) * 117 = 15/2`, which rounds to 8; the command prints 7 blocks
and height 1,000,007, because the `float64` quotient and product round to
`7.499999999999999`. -/
theorem float_rounding_changes_projection :
    secondsPassed tipMillion ⟨⟨990000, -156000000000000⟩⟩ = F64.ofNat 156000 ∧
    durationSeconds (timeSub 117000000000 envSlow.now) = F64.ofNat 117 ∧
    IsNearestHalfAway ((10000 : ℚ) / 156000 * 117) 8 ∧
    Event.printWindow 10000 1000007 7 (F64.div (F64.ofNat 156000) (F64.ofNat 10000))
        (F64.div (F64.ofNat 156000) (F64.ofNat 3600)) ∈
      (EstimateBlockHeightCmd envSlow ["2050-05-22T15:00"]).log := by
  refine ⟨by decide!, by decide!, ?_, by decide!⟩
  right
  norm_num [abs_of_pos, abs_of_neg]

/-- C3, amended: the arithmetic of a window is that of `float64`. When the
`float64` product of the `float64` quotient `float64(w) / secondsPassed` and
`secondsUntilThen` is finite, and its rounded value and the projected height
fit `int64`: `blocksUntilThen` is the integer nearest to that product, a half
rounded away from zero; `heightAtTime = currentHeight + blocksUntilThen`; and
`avgBlockTime` is the `float64` quotient `secondsPassed / float64(w)`. Where
the product equals the exact `(w / secondsPassed) * secondsUntilThen`, the
rounding is that of the exact value. The quotient and the product are the
`float64` roundings (to nearest, ties to even) of the exact quotient and of
the exact product of their operands. -/
theorem window_projection (env : Env) (cur start : Block) (su : F64) (w : Int)
    (s : Bool) (k : Nat)
    (hprod : F64.mul (F64.div (f64OfInt64 w) (secondsPassed cur start)) su = .fin s k)
    (hb : inInt64 (roundedInt s k))
    (hh : inInt64 (cur.Header.Height + roundedInt s k)) :
    IsNearestHalfAway
      (F64.toRat (F64.mul (F64.div (f64OfInt64 w) (secondsPassed cur start)) su))
      (roundedInt s k) ∧
    windowLine env cur start su w =
      .printWindow w (cur.Header.Height + roundedInt s k) (roundedInt s k)
        (F64.div (secondsPassed cur start) (f64OfInt64 w))
        (F64.div (secondsPassed cur start) (F64.ofNat 3600)) ∧
    (F64.toRat (F64.mul (F64.div (f64OfInt64 w) (secondsPassed cur start)) su) =
        (w : ℚ) / F64.toRat (secondsPassed cur start) * F64.toRat su →
      IsNearestHalfAway ((w : ℚ) / F64.toRat (secondsPassed cur start) * F64.toRat su)
        (roundedInt s k)) ∧
    (∀ sw kw t b sq kq, f64OfInt64 w = .fin sw kw → secondsPassed cur start = .fin t b →
      b ≠ 0 → F64.div (f64OfInt64 w) (secondsPassed cur start) = .fin sq kq →
      IsRounding (kw * unitsPerOne) b kq) ∧
    (∀ sq kq ss ks, F64.div (f64OfInt64 w) (secondsPassed cur start) = .fin sq kq →
      su = .fin ss ks → IsRounding (kq * ks) unitsPerOne k) := by
  have hnear : IsNearestHalfAway
      (F64.toRat (F64.mul (F64.div (f64OfInt64 w) (secondsPassed cur start)) su))
      (roundedInt s k) := by
    rw [hprod]
    exact roundedInt_isNearest s k
  refine ⟨hnear, ?_, fun he => by rw [← he]; exact hnear, ?_, ?_⟩
  · simp only [windowLine, blocksUntilThen, blocksPerSec, hprod, int64_mathRound _ s k hb,
      addInt64, wrapInt64_of_inInt64 hh]
  · intro sw kw t b sq kq hw hsp hb0 hdiv
    rw [hw, hsp] at hdiv
    exact div_isRounding hb0 hdiv
  · intro sq kq ss ks hdiv hsu
    rw [hdiv, hsu] at hprod
    exact mul_isRounding hprod

/-- C3, witness: tip at height 1,000,000, window 10,000 sampled over 100,000
seconds, target 50,000 seconds ahead: average block time 10 seconds, 5,000
blocks until the target, projected height 1,005,000. -/
theorem window_projection_witness :
    windowLine envSteady tipMillion ⟨⟨990000, -100000000000000⟩⟩
        (durationSeconds 50000000000000) 10000 =
      .printWindow 10000 1005000 5000 (F64.ofNat 10)
        (F64.div (F64.ofNat 100000) (F64.ofNat 3600)) := by
  have h := window_projection envSteady tipMillion ⟨⟨990000, -100000000000000⟩⟩
    (durationSeconds 50000000000000) 10000 false (5000 * unitsPerOne)
    (by decide!) (by decide!) (by decide!)
  rw [h.2.1]
  decide!

end Nmtool.Estimate

/-! ## Facts about `inflation avg` -/

namespace Nmtool.Inflation

theorem queries_endCalls (args : List String) : queries (endCalls args) = [] := by
  unfold endCalls
  split <;> simp [queries]

theorem queries_reads (reads : List Read) : queries (reads.map Event.read) = [] := by
  induction reads with
  | nil => rfl
  | cons r rest ih => simp [queries]

theorem supplyReads_endCalls (args : List String) : supplyReads (endCalls args) = [] := by
  unfold endCalls
  split <;> simp [supplyReads]

theorem AverageInflation_cons (env : Env) (a0 : String) (rest : List String)
    (hlen : rest.length ≤ 1) :
    AverageInflation env (a0 :: rest) = runE env a0 (a0 :: rest) := by
  match rest, hlen with
  | [], _ => rfl
  | [_], _ => rfl

/-- The run once the client is built, `end` resolved and a non-zero `start`
parsed. -/
theorem runE_resolved (env : Env) (a0 : String) (args : List String) (k : Client)
    (e s : Int) (hk : env.NewClient env.nemoGrpcUrl = .ok k)
    (hend : resolveEnd k args = .ok e) (hs : ParseInt a0 = .ok s) (h0 : s ≠ 0) :
    runE env a0 args =
      match k.InflationOverBlocks (resolveStart s e) e with
      | (reads, .error err) =>
        ⟨[Event.printEndpoint env.nemoGrpcUrl, .newClient env.nemoGrpcUrl] ++ endCalls args ++
          [.inflationOverBlocks (resolveStart s e) e] ++ reads.map .read,
          .returned (some (.query err))⟩
      | (reads, .ok result) =>
        ⟨[Event.printEndpoint env.nemoGrpcUrl, .newClient env.nemoGrpcUrl] ++ endCalls args ++
          [.inflationOverBlocks (resolveStart s e) e] ++ reads.map .read ++
          [.printResult result], .returned none⟩ := by
  simp only [runE, hk, hend, hs, if_neg h0]

theorem queries_runE_resolved (env : Env) (a0 : String) (args : List String) (k : Client)
    (e s : Int) (hk : env.NewClient env.nemoGrpcUrl = .ok k)
    (hend : resolveEnd k args = .ok e) (hs : ParseInt a0 = .ok s) (h0 : s ≠ 0) :
    queries (runE env a0 args).log = [(resolveStart s e, e)] := by
  rw [runE_resolved env a0 args k e s hk hend hs h0]
  rcases hq : k.InflationOverBlocks (resolveStart s e) e with ⟨reads, r⟩
  have h1 := queries_endCalls args
  have h2 := queries_reads reads
  unfold queries at h1 h2 ⊢
  cases r <;> simp [List.filterMap_append, h1, h2]

theorem supplyReads_runE_resolved (env : Env) (a0 : String) (args : List String) (k : Client)
    (e s : Int) (hk : env.NewClient env.nemoGrpcUrl = .ok k)
    (hend : resolveEnd k args = .ok e) (hs : ParseInt a0 = .ok s) (h0 : s ≠ 0) :
    supplyReads (runE env a0 args).log =
      supplyReads ((k.InflationOverBlocks (resolveStart s e) e).1.map Event.read) := by
  rw [runE_resolved env a0 args k e s hk hend hs h0]
  rcases hq : k.InflationOverBlocks (resolveStart s e) e with ⟨reads, r⟩
  have h1 := supplyReads_endCalls args
  unfold supplyReads at h1 ⊢
  cases r <;> simp [List.filterMap_append, h1]

theorem exit_runE_resolved (env : Env) (a0 : String) (args : List String) (k : Client)
    (e s : Int) (hk : env.NewClient env.nemoGrpcUrl = .ok k)
    (hend : resolveEnd k args = .ok e) (hs : ParseInt a0 = .ok s) (h0 : s ≠ 0) :
    (runE env a0 args).exit =
      match (k.InflationOverBlocks (resolveStart s e) e).2 with
      | .error err => .returned (some (.query err))
      | .ok _ => .returned none := by
  rw [runE_resolved env a0 args k e s hk hend hs h0]
  rcases hq : k.InflationOverBlocks (resolveStart s e) e with ⟨reads, r⟩
  cases r <;> rfl

theorem InflationOverBlocks_invalid (f : Fetcher) (start finish : Int) (h : finish ≤ start) :
    InflationOverBlocks f start finish = ([], .error (.invalidRange start finish)) := by
  simp [InflationOverBlocks, h]

theorem InflationOverBlocks_valid (f : Fetcher) (start finish : Int) (h : start < finish) :
    ∃ tl r, InflationOverBlocks f start finish = (Read.mintedSupplyAt start :: tl, r) := by
  simp only [InflationOverBlocks, gt_iff_lt, h, not_true_eq_false, if_false]
  cases h1 : f.mintedSupplyAt start with
  | error c => exact ⟨_, _, rfl⟩
  | ok v1 =>
    cases h2 : f.mintedSupplyAt finish with
    | error c => exact ⟨_, _, rfl⟩
    | ok v2 =>
      cases h3 : f.atHeight start f.maxAttempts with
      | error c => exact ⟨_, _, rfl⟩
      | ok b1 =>
        cases h4 : f.atHeight finish f.maxAttempts with
        | error c => exact ⟨_, _, rfl⟩
        | ok b2 =>
          by_cases hpos : 0 < secondsOf (timeSub b2.Header.Time b1.Header.Time)
          · simp only [hpos, not_true_eq_false, if_false]
            exact ⟨_, _, rfl⟩
          · simp only [hpos, not_false_eq_true, if_true]
            exact ⟨_, _, rfl⟩

end Nmtool.Inflation

/-! ## The inflation command: start-height resolution (C4) -/

namespace Nmtool.Inflation

/-- C4: with `end` resolved to `e` and the start argument parsed to `s`: for
a negative `s` the query is called once, with start `e + s` (the `int64` sum,
which is the exact sum whenever that fits `int64`) and end `e`; for a positive
`s` it is called once with start `s` and end `e`. -/
theorem start_height_resolution (env : Env) (a0 : String) (rest : List String) (k : Client)
    (e s : Int) (hlen : rest.length ≤ 1)
    (hk : env.NewClient env.nemoGrpcUrl = .ok k)
    (hend : resolveEnd k (a0 :: rest) = .ok e) (hs : ParseInt a0 = .ok s) :
    (s < 0 → queries (AverageInflation env (a0 :: rest)).log = [(addInt64 e s, e)] ∧
      (inInt64 (e + s) → addInt64 e s = e + s)) ∧
    (0 < s → queries (AverageInflation env (a0 :: rest)).log = [(s, e)]) := by
  rw [AverageInflation_cons env a0 rest hlen]
  refine ⟨fun hneg => ⟨?_, fun hin => wrapInt64_of_inInt64 hin⟩, fun hpos => ?_⟩
  · rw [queries_runE_resolved env a0 _ k e s hk hend hs (by omega)]
    simp [resolveStart, hneg]
  · rw [queries_runE_resolved env a0 _ k e s hk hend hs (by omega)]
    simp [resolveStart, not_lt.mpr (le_of_lt hpos)]

/-- C4, witness: `inflation avg -- -1000 3000000` queries the range from
2,999,000 to 3,000,000. -/
theorem start_height_resolution_witness :
    queries (AverageInflation envEcho ["-1000", "3000000"]).log = [(2999000, 3000000)] := by
  have h := (start_height_resolution envEcho "-1000" ["3000000"] echoClient 3000000 (-1000)
    (by decide) rfl rfl rfl).1 (by decide)
  rw [h.1, h.2 (by decide)]
  rfl

/-! ## The inflation command: a zero start (C5) -/

/-- C5: a start argument that parses to 0 always fails. With the client
built, whatever the end (given, or read from the latest block, or failing to
resolve), the command returns an error and `InflationOverBlocks` is not
called; when the end resolves, the error is "start block cannot equal 0". -/
theorem zero_start_always_fails (env : Env) (a0 : String) (rest : List String) (k : Client)
    (hlen : rest.length ≤ 1)
    (hk : env.NewClient env.nemoGrpcUrl = .ok k) (hs : ParseInt a0 = .ok 0) :
    (∃ err, (AverageInflation env (a0 :: rest)).exit = .returned (some err)) ∧
    queries (AverageInflation env (a0 :: rest)).log = [] ∧
    (∀ e, resolveEnd k (a0 :: rest) = .ok e →
      (AverageInflation env (a0 :: rest)).exit = .returned (some .startZero)) := by
  rw [AverageInflation_cons env a0 rest hlen]
  have hq := queries_endCalls (a0 :: rest)
  cases hend : resolveEnd k (a0 :: rest) with
  | error err =>
    refine ⟨⟨err, by simp [runE, hk, hend]⟩, ?_, fun e he => by simp at he⟩
    simp only [runE, hk, hend]
    unfold queries at hq ⊢
    simp [List.filterMap_append, hq]
  | ok e =>
    refine ⟨⟨.startZero, by simp [runE, hk, hend, hs]⟩, ?_, fun _ _ => by simp [runE, hk, hend, hs]⟩
    simp only [runE, hk, hend, hs]
    unfold queries at hq ⊢
    simp [List.filterMap_append, hq]

/-- C5, witness: `inflation avg 0 3000000`. -/
theorem zero_start_always_fails_witness :
    (∃ err, (AverageInflation envEcho ["0", "3000000"]).exit = .returned (some err)) ∧
    queries (AverageInflation envEcho ["0", "3000000"]).log = [] ∧
    (∀ e, resolveEnd echoClient ["0", "3000000"] = .ok e →
      (AverageInflation envEcho ["0", "3000000"]).exit = .returned (some .startZero)) :=
  zero_start_always_fails envEcho "0" ["3000000"] echoClient (by decide) rfl rfl

/-! ## The inflation command: the resolved start (C10) -/

/-- C10, at the failing input: `inflation avg -- -5 5` passes the guard on the
start argument and calls `InflationOverBlocks` with start height 0. -/
theorem resolved_start_zero_reaches_query :
    ParseInt "-5" = .ok (-5) ∧ ParseInt "5" = .ok 5 ∧
    resolveStart (-5) 5 = 0 ∧
    queries (AverageInflation envEcho ["-5", "5"]).log = [(0, 5)] := by
  refine ⟨rfl, rfl, by decide, by decide⟩

/-! ## The inflation command: range validation (C6) -/

/-- C6: with `InflationOverBlocks` the calculator of the spec, `end` resolved
to `e` and a non-zero start resolved against it: when `e` is not above the
resolved start the command fails with the invalid-range error and no supply is
read; and supply is read only, and then first at the resolved start, when `e`
is above it. -/
theorem range_validated_before_supply_read (env : Env) (a0 : String) (rest : List String)
    (latest : Except String Block) (f : Fetcher) (e s : Int) (hlen : rest.length ≤ 1)
    (hk : env.NewClient env.nemoGrpcUrl = .ok (specClient latest f))
    (hend : resolveEnd (specClient latest f) (a0 :: rest) = .ok e)
    (hs : ParseInt a0 = .ok s) (h0 : s ≠ 0) :
    (e ≤ resolveStart s e →
      (AverageInflation env (a0 :: rest)).exit =
          .returned (some (.query (.invalidRange (resolveStart s e) e))) ∧
        supplyReads (AverageInflation env (a0 :: rest)).log = []) ∧
    (supplyReads (AverageInflation env (a0 :: rest)).log ≠ [] → resolveStart s e < e) ∧
    (resolveStart s e < e →
      (supplyReads (AverageInflation env (a0 :: rest)).log).head? = some (resolveStart s e)) := by
  rw [AverageInflation_cons env a0 rest hlen,
    supplyReads_runE_resolved env a0 _ (specClient latest f) e s hk hend hs h0,
    exit_runE_resolved env a0 _ (specClient latest f) e s hk hend hs h0]
  have hspec : (specClient latest f).InflationOverBlocks (resolveStart s e) e =
      InflationOverBlocks f (resolveStart s e) e := rfl
  rw [hspec]
  refine ⟨fun hle => ?_, fun hne => ?_, fun hlt => ?_⟩
  · rw [InflationOverBlocks_invalid f _ _ hle]
    exact ⟨rfl, rfl⟩
  · by_contra hnot
    push_neg at hnot
    rw [InflationOverBlocks_invalid f _ _ hnot] at hne
    exact hne rfl
  · obtain ⟨tl, r, hv⟩ := InflationOverBlocks_valid f _ _ hlt
    rw [hv]
    simp [supplyReads]

/-- C6, witness: `inflation avg 10 5` against the calculator of the spec. -/
theorem range_validated_before_supply_read_witness :
    (5 ≤ resolveStart 10 5 →
      (AverageInflation envSpec ["10", "5"]).exit =
          .returned (some (.query (.invalidRange (resolveStart 10 5) 5))) ∧
        supplyReads (AverageInflation envSpec ["10", "5"]).log = []) ∧
    (supplyReads (AverageInflation envSpec ["10", "5"]).log ≠ [] → resolveStart 10 5 < 5) ∧
    (resolveStart 10 5 < 5 →
      (supplyReads (AverageInflation envSpec ["10", "5"]).log).head? =
        some (resolveStart 10 5)) :=
  range_validated_before_supply_read envSpec "10" ["5"] (.ok ⟨⟨3000000, 30000000000000000⟩⟩)
    linearFetcher 5 10 (by decide) rfl rfl rfl (by decide)

end Nmtool.Inflation

/-! ## Facts about `swap-id` -/

namespace Nmtool.SwapID

/-- X1: the branch guarded by `!isNemoAddress && !isBnbAddress` is taken
exactly when the two decodings agree: both failed or both succeeded. -/
theorem takesErrorBranch_iff (errNemo errBnb : Option String) :
    takesErrorBranch errNemo errBnb = true ↔ (errNemo.isNone = errBnb.isNone) := by
  unfold takesErrorBranch isNemoAddress isBnbAddress
  cases errNemo <;> cases errBnb <;> simp

/-- X2: the statement of the error branch returns its error (rather than
panicking) exactly when both decodings failed. -/
theorem errorBranch_returns_iff (errNemo errBnb : Option String) :
    (∃ e, errorBranch errNemo errBnb = .returned e) ↔
      (errNemo.isSome = true ∧ errBnb.isSome = true) := by
  unfold errorBranch
  cases errNemo <;> cases errBnb <;> simp

theorem printResults_returnsOther (env : Env) (a b : Bytes) :
    ReturnsOther (printResults env a b).exit := by
  unfold printResults
  split
  · exact ⟨_, rfl, by simp⟩
  · exact ⟨_, rfl, by simp⟩

/-- Past the error branch every path of `RunE` returns, and none returns the
sender-address error. -/
theorem runE_returnsOther (env : Env) (nemoDeputies bnbDeputies : List (String × Bytes))
    (a0 a1 a2 : String) (hash : Bytes) (hhex : env.hexDecodeString a0 = .ok hash)
    (hno : takesErrorBranch (env.nemoAccAddressFromBech32 a1).2
      (env.bnbAccAddressFromBech32 a1).2 = false) :
    ReturnsOther (runE env nemoDeputies bnbDeputies a0 a1 a2).exit := by
  unfold runE
  simp only [hhex, hno, Bool.false_eq_true, if_false]
  split
  · split
    · exact ⟨_, rfl, by simp⟩
    · split
      · exact ⟨_, rfl, by simp⟩
      · exact printResults_returnsOther _ _ _
  · split
    · exact ⟨_, rfl, by simp⟩
    · split
      · exact ⟨_, rfl, by simp⟩
      · exact printResults_returnsOther _ _ _

theorem runE_errorBranch (env : Env) (nemoDeputies bnbDeputies : List (String × Bytes))
    (a0 a1 a2 : String) (hash : Bytes) (hhex : env.hexDecodeString a0 = .ok hash)
    (hyes : takesErrorBranch (env.nemoAccAddressFromBech32 a1).2
      (env.bnbAccAddressFromBech32 a1).2 = true) :
    (runE env nemoDeputies bnbDeputies a0 a1 a2).exit =
      errorBranch (env.nemoAccAddressFromBech32 a1).2 (env.bnbAccAddressFromBech32 a1).2 := by
  unfold runE
  simp only [hhex, hyes, if_true]

theorem SwapIDCmd_eq_runE (env : Env) (nemoDeputies bnbDeputies : List (String × Bytes))
    (a0 a1 a2 : String)
    (hn : buildDeputies env.nemoAccAddressFromBech32 nemoDeputiesStrings = some nemoDeputies)
    (hb : buildDeputies env.bnbAccAddressFromBech32 bnbDeputiesStrings = some bnbDeputies) :
    SwapIDCmd env [a0, a1, a2] = runE env nemoDeputies bnbDeputies a0 a1 a2 := by
  unfold SwapIDCmd
  rw [hn, hb]

end Nmtool.SwapID

/-! ## The swap-id command: the sender's address (C9) -/

namespace Nmtool.SwapID

/-- C9: with the deputies tables built and the hash decoded, the command
returns the "can't unmarshal original sender address" error exactly when both
decodings of the sender's address failed. When moreover the two decoders do
not both accept that address (each requires its own bech32 prefix), the error
branch is taken exactly when both decodings failed; so when a decoding
succeeds the branch is not taken, `Error` is never called on a nil error, and
the command does not panic. -/
theorem sender_rejected_iff_both_decodings_fail (env : Env)
    (nemoDeputies bnbDeputies : List (String × Bytes)) (a0 a1 a2 : String) (hash : Bytes)
    (hn : buildDeputies env.nemoAccAddressFromBech32 nemoDeputiesStrings = some nemoDeputies)
    (hb : buildDeputies env.bnbAccAddressFromBech32 bnbDeputiesStrings = some bnbDeputies)
    (hhex : env.hexDecodeString a0 = .ok hash) :
    ((∃ m n, (SwapIDCmd env [a0, a1, a2]).exit = .returned (some (.cantUnmarshalSender m n))) ↔
      ((env.nemoAccAddressFromBech32 a1).2 ≠ none ∧
        (env.bnbAccAddressFromBech32 a1).2 ≠ none)) ∧
    (¬ ((env.nemoAccAddressFromBech32 a1).2 = none ∧
        (env.bnbAccAddressFromBech32 a1).2 = none) →
      (takesErrorBranch (env.nemoAccAddressFromBech32 a1).2
          (env.bnbAccAddressFromBech32 a1).2 = true ↔
        ((env.nemoAccAddressFromBech32 a1).2 ≠ none ∧
          (env.bnbAccAddressFromBech32 a1).2 ≠ none)) ∧
      (((env.nemoAccAddressFromBech32 a1).2 = none ∨
          (env.bnbAccAddressFromBech32 a1).2 = none) →
        takesErrorBranch (env.nemoAccAddressFromBech32 a1).2
          (env.bnbAccAddressFromBech32 a1).2 = false) ∧
      (∀ cause, (SwapIDCmd env [a0, a1, a2]).exit ≠ .panicked cause)) := by
  rw [SwapIDCmd_eq_runE env nemoDeputies bnbDeputies a0 a1 a2 hn hb]
  have hrun := runE_returnsOther env nemoDeputies bnbDeputies a0 a1 a2 hash hhex
  have herr := runE_errorBranch env nemoDeputies bnbDeputies a0 a1 a2 hash hhex
  revert hrun herr
  generalize (env.nemoAccAddressFromBech32 a1).2 = errNemo
  generalize (env.bnbAccAddressFromBech32 a1).2 = errBnb
  generalize (runE env nemoDeputies bnbDeputies a0 a1 a2).exit = x
  intro hrun herr
  cases errNemo <;> cases errBnb
  · have hx := herr (by simp [takesErrorBranch, isNemoAddress, isBnbAddress])
    subst hx
    exact ⟨⟨fun ⟨m, n, h⟩ => by simp [errorBranch] at h, fun h => absurd rfl h.1⟩,
      fun hexcl => absurd ⟨rfl, rfl⟩ hexcl⟩
  · obtain ⟨e, he, hne⟩ := hrun (by simp [takesErrorBranch, isNemoAddress, isBnbAddress])
    subst he
    exact ⟨⟨fun ⟨m, n, h⟩ => absurd (Exit.returned.inj h) (hne m n), fun h => absurd rfl h.1⟩,
      fun _ => ⟨by simp [takesErrorBranch, isNemoAddress, isBnbAddress],
        fun _ => by simp [takesErrorBranch, isNemoAddress, isBnbAddress], fun c => by simp⟩⟩
  · obtain ⟨e, he, hne⟩ := hrun (by simp [takesErrorBranch, isNemoAddress, isBnbAddress])
    subst he
    exact ⟨⟨fun ⟨m, n, h⟩ => absurd (Exit.returned.inj h) (hne m n), fun h => absurd rfl h.2⟩,
      fun _ => ⟨by simp [takesErrorBranch, isNemoAddress, isBnbAddress],
        fun _ => by simp [takesErrorBranch, isNemoAddress, isBnbAddress], fun c => by simp⟩⟩
  · rename_i m n
    have hx := herr (by simp [takesErrorBranch, isNemoAddress, isBnbAddress])
    subst hx
    exact ⟨⟨fun _ => ⟨by simp, by simp⟩, fun _ => ⟨m, n, rfl⟩⟩,
      fun _ => ⟨by simp [takesErrorBranch, isNemoAddress, isBnbAddress],
        fun h => by simp at h, fun c => by simp [errorBranch]⟩⟩

/-- C9, witness: the command's own example, with decoders that tell the
chains apart by the prefix: only the bnb decoding succeeds, the branch is not
taken, no sender-address error is returned, and the command does not panic. -/
theorem sender_rejected_iff_both_decodings_fail_witness :
    (envDisjoint.nemoAccAddressFromBech32 "bnb10rr5f8m73rxgnz9afvnfn7fn9pwhfskem5kn0x").2
      ≠ none ∧
    (envDisjoint.bnbAccAddressFromBech32 "bnb10rr5f8m73rxgnz9afvnfn7fn9pwhfskem5kn0x").2
      = none ∧
    takesErrorBranch
        (envDisjoint.nemoAccAddressFromBech32 "bnb10rr5f8m73rxgnz9afvnfn7fn9pwhfskem5kn0x").2
        (envDisjoint.bnbAccAddressFromBech32 "bnb10rr5f8m73rxgnz9afvnfn7fn9pwhfskem5kn0x").2
        = false ∧
    (¬ ∃ m n, (SwapIDCmd envDisjoint exampleArgs).exit =
      .returned (some (.cantUnmarshalSender m n))) ∧
    (∀ cause, (SwapIDCmd envDisjoint exampleArgs).exit ≠ .panicked cause) := by
  have h := sender_rejected_iff_both_decodings_fail envDisjoint
    ((nemoDeputiesStrings.map fun p => (p.1, sampleBytes p.2)))
    ((bnbDeputiesStrings.map fun p => (p.1, sampleBytes p.2)))
    "464105c245199d02a4289475b8b231f3f73918b6f0fdad898825186950d46f36"
    "bnb10rr5f8m73rxgnz9afvnfn7fn9pwhfskem5kn0x" "busd"
    (sampleBytes "464105c245199d02a4289475b8b231f3f73918b6f0fdad898825186950d46f36")
    (by decide) (by decide) rfl
  have hb : (envDisjoint.bnbAccAddressFromBech32
      "bnb10rr5f8m73rxgnz9afvnfn7fn9pwhfskem5kn0x").2 = none := by decide
  have hn : (envDisjoint.nemoAccAddressFromBech32
      "bnb10rr5f8m73rxgnz9afvnfn7fn9pwhfskem5kn0x").2 ≠ none := by decide
  have h2 := h.2 (fun hboth => hn hboth.1)
  exact ⟨hn, hb, h2.2.1 (Or.inr hb), fun hex => (h.1.mp hex).2 hb, h2.2.2⟩

end Nmtool.SwapID
